import Mathlib

/-!
Verification development for the Hierarchical Faceted Filter & Boolean Query
Engine of the climate-solutions explorer (js/search.js).

The engine's functions are embedded shallowly:

* query strings are Lean `String`s; the JS regular-expression operations the
  evaluator performs (`\b(AND|OR|NOT)\b` tests, `split(/\s+OR\s+/i)`,
  `/^(.+?)\s+NOT\s+(.+)$/i`, `replace(/\b(AND|OR|NOT)\b/gi, '')`,
  `replace(/\s+/g,' ')`, `trim()`) are implemented as executable char-list
  scanners with the same matching semantics (word chars are ASCII
  alphanumerics plus underscore, keyword comparison is case-insensitive);
* the external Text Index (MiniSearch) is a parameter
  `idx : String -> SearchOpts -> Except Unit (List SearchResult)`;
  a `.error` value models the index throwing an exception;
* the mutually recursive evaluator functions take a fuel argument; running
  out of fuel (`JsErr.stackOverflow`) models exhausting the JS call stack,
  and `JsErr.indexError` models a Text-Index exception escaping uncaught;
* tree nodes are `Node` values; `Option` fields model JS fields that may be
  `undefined`; filter stages return `Option Node` (`none` models `null`);
* `JsErr.typeError` models the TypeError raised when a filter dereferences
  a `null` tree.
-/

/-! ## Character and scanning primitives (JS regex semantics) -/

/-- JS `\s` for the whitespace the engine meets (space, tab, CR, LF). -/
def isWsChar (c : Char) : Bool := c.isWhitespace

/-- JS `\w`: ASCII alphanumerics and underscore; used for `\b` boundaries. -/
def isWordChar (c : Char) : Bool := c.isAlphanum || c == '_'

/-- Case-insensitive character comparison, as under the JS `i` regex flag. -/
def lowerEq (a b : Char) : Bool := a.toLower == b.toLower

/-- The three operator keywords of the boolean query grammar. -/
def andKw : List Char := ['A', 'N', 'D']

def orKw : List Char := ['O', 'R']

def notKw : List Char := ['N', 'O', 'T']

/-- Match `kw` case-insensitively at the head of `cs`; return the rest. -/
def stripKw : List Char → List Char → Option (List Char)
  | [], cs => some cs
  | _ :: _, [] => none
  | k :: ks, c :: cs => if lowerEq c k then stripKw ks cs else none

/-- Word boundary after a keyword: end of input or a non-word character. -/
def bAfter : List Char → Bool
  | [] => true
  | r :: _ => !isWordChar r

/-- Does `kw` match at the head of `cs` with a word boundary after it? -/
def checkKwHere (kw : List Char) (cs : List Char) : Bool :=
  match stripKw kw cs with
  | none => false
  | some r => bAfter r

/-- Scan for a `\bkw\b` match (case-insensitive); `prevWord` records whether
the previous character was a word character (for the left boundary). -/
def hasKwAux (kw : List Char) : Bool → List Char → Bool
  | _, [] => false
  | prevWord, c :: cs =>
    (!prevWord && checkKwHere kw (c :: cs)) || hasKwAux kw (isWordChar c) cs

/-- JS `/\bkw\b/i.test(s)`. -/
def hasKw (kw : List Char) (s : String) : Bool := hasKwAux kw false s.data

/-- JS `/\b(AND|OR|NOT)\b/i.test(query)` (`containsBooleanOperators`). -/
def containsBooleanOperators (q : String) : Bool :=
  hasKw andKw q || hasKw orKw q || hasKw notKw q

/-- Trailing `\s+` of a separator: at least one whitespace, taken greedily;
returns what follows the separator. -/
def matchTrailWs : List Char → Option (List Char)
  | [] => none
  | c :: cs => if isWsChar c then some (cs.dropWhile isWsChar) else none

/-- After at least one leading whitespace was seen: consume the rest of the
whitespace run, then require `kw` (case-insensitively) and trailing `\s+`. -/
def matchSepAfterWs (kw : List Char) : List Char → Option (List Char)
  | [] => none
  | c :: cs =>
    if isWsChar c then matchSepAfterWs kw cs
    else
      match stripKw kw (c :: cs) with
      | none => none
      | some r => matchTrailWs r

/-- Match the separator regex `\s+kw\s+` (case-insensitive) at the head of the
input; on success return the input minus the whole separator match. -/
def matchSep (kw : List Char) : List Char → Option (List Char)
  | [] => none
  | c :: cs => if isWsChar c then matchSepAfterWs kw cs else none

/-- Leftmost separator match: returns the part before it and the rest after. -/
def splitFirst (kw : List Char) : List Char → Option (List Char × List Char)
  | [] => none
  | c :: cs =>
    match matchSep kw (c :: cs) with
    | some rest => some ([], rest)
    | none =>
      match splitFirst kw cs with
      | some (pre, rest) => some (c :: pre, rest)
      | none => none

/-- Fuelled splitting loop; every separator consumes at least one character,
so `length + 1` fuel always suffices. -/
def jsSplitGo (kw : List Char) : Nat → List Char → List (List Char)
  | 0, l => [l]
  | fuel + 1, l =>
    match splitFirst kw l with
    | none => [l]
    | some (pre, rest) => pre :: jsSplitGo kw fuel rest

/-- JS `str.split(/\s+kw\s+/i)`. -/
def jsSplitList (kw : List Char) (l : List Char) : List (List Char) :=
  jsSplitGo kw (l.length + 1) l

/-- JS `String.prototype.trim()`. -/
def jsTrimL (l : List Char) : List Char :=
  ((l.dropWhile isWsChar).reverse.dropWhile isWsChar).reverse

/-- JS `s.trim()` on strings. -/
def jsTrimS (s : String) : String := String.mk (jsTrimL s.data)

/-- Try one keyword of the alternation at this position (boundary after). -/
def tryKw1 (kw : List Char) (cs : List Char) : Option (List Char) :=
  match stripKw kw cs with
  | some rest => if bAfter rest then some rest else none
  | none => none

/-- The alternation `(AND|OR|NOT)` with its right boundary, tried in the
regex's order; returns the rest after the matched keyword. -/
def tryAnyKw (cs : List Char) : Option (List Char) :=
  match tryKw1 andKw cs with
  | some rest => some rest
  | none =>
    match tryKw1 orKw cs with
    | some rest => some rest
    | none => tryKw1 notKw cs

/-- Fuelled scan for `replace(/\b(AND|OR|NOT)\b/gi, '')`: global, left to
right, resuming right after each match (whose last character is a word
character, so `prevWord` becomes true there). -/
def removeOpsGo : Nat → Bool → List Char → List Char
  | 0, _, l => l
  | _ + 1, _, [] => []
  | fuel + 1, prevWord, c :: cs =>
    if !prevWord then
      match tryAnyKw (c :: cs) with
      | some rest => removeOpsGo fuel true rest
      | none => c :: removeOpsGo fuel (isWordChar c) cs
    else c :: removeOpsGo fuel (isWordChar c) cs

/-- JS `replace(/\s+/g, ' ')`: collapse every whitespace run to one space. -/
def collapseWsGo : Bool → List Char → List Char
  | _, [] => []
  | prevWs, c :: cs =>
    if isWsChar c then
      if prevWs then collapseWsGo true cs else ' ' :: collapseWsGo true cs
    else c :: collapseWsGo false cs

/-- `cleanSearchTerm`: strip stray boolean operators, collapse whitespace,
then trim. -/
def cleanSearchTerm (term : String) : String :=
  if term.isEmpty then ""
  else
    String.mk
      (jsTrimL (collapseWsGo false
        (removeOpsGo (term.data.length + 1) false term.data)))

/-- Tail of `/^(.+?)\s+NOT\s+(.+)$/i` after the include part: `\s+(.+)$` with
the regex engine's backtracking (the final `.+` needs at least one character,
so when the input ends in whitespace the last whitespace character is given
back to the capture). -/
def notTrail (r : List Char) : Option (List Char) :=
  let w := r.takeWhile isWsChar
  let rest := r.dropWhile isWsChar
  if w.isEmpty then none
  else if !rest.isEmpty then some rest
  else if w.length ≥ 2 then some [w.getLastD ' '] else none

/-- Match `\s+NOT\s+(.+)$` at the head of `cs`, returning the capture. -/
def notTail (cs : List Char) : Option (List Char) :=
  let w := cs.takeWhile isWsChar
  let r1 := cs.dropWhile isWsChar
  if w.isEmpty then none
  else
    match stripKw notKw r1 with
    | none => none
    | some r2 => notTrail r2

/-- Lazy scan of `/^(.+?)\s+NOT\s+(.+)$/i`: the shortest non-empty include
prefix followed by the `NOT` separator wins. -/
def notSplitGo (accRev : List Char) : List Char → Option (List Char × List Char)
  | [] => none
  | c :: cs =>
    match notTail cs with
    | some ex => some ((c :: accRev).reverse, ex)
    | none => notSplitGo (c :: accRev) cs

/-- JS `queryText.match(/^(.+?)\s+NOT\s+(.+)$/i)` as (include, exclude). -/
def notSplit (l : List Char) : Option (List Char × List Char) :=
  notSplitGo [] l

/-- JS `queryText.match(/^NOT\s+(.+)$/i)` returning the exclude capture. -/
def notAtStart (cs : List Char) : Option (List Char) :=
  match stripKw notKw cs with
  | none => none
  | some r => notTrail r

/-! ## The Text Index interface and the boolean query evaluator -/

/-- One entry of a MiniSearch result list. Scores are JS numbers; they are
modelled as integers, which preserves the orderings the engine inspects. -/
structure SearchResult where
  id : Nat
  name : String
  score : Int
deriving DecidableEq

/-- Options passed to the Text Index. `pfx` is the source's `prefix` flag;
`fuzzy` is in tenths (`0.1` is `1`, `0.2` is `2`). -/
structure SearchOpts where
  pfx : Bool := false
  fuzzy : Option Nat := none
  combineWith : Option String := none
deriving DecidableEq

/-- Plain search options used by the fallback and the universal query. -/
def optsSimple : SearchOpts := { pfx := true }

/-- Exact-phrase mode options. -/
def optsPhrase : SearchOpts := { pfx := false, fuzzy := some 1, combineWith := some "AND" }

/-- Regular-term mode options. -/
def optsTerm : SearchOpts := { pfx := true, fuzzy := some 2, combineWith := some "AND" }

/-- The external Text Index: a black box that may throw (`.error`). -/
abbrev TextIndex := String → SearchOpts → Except Unit (List SearchResult)

/-- Errors a run can surface: a filter stage dereferencing `null`, a
Text-Index exception escaping the evaluator, or stack exhaustion from
unbounded recursion (fuel running out). -/
inductive JsErr where
  | typeError
  | indexError
  | stackOverflow
deriving DecidableEq

/-- Does the cleaned term start and end with a double quote? -/
def startsEndsQuote (s : String) : Bool :=
  match s.data with
  | [] => false
  | c :: _ => c == '"' && s.data.getLastD ' ' == '"'

/-- JS `cleanTerm.slice(1, -1)`. -/
def phraseOf (s : String) : String := String.mk (s.data.drop 1).dropLast

/-- `searchSingleTerm`: clean the term, pick phrase or prefix mode, query the
index inside try/catch, and turn any index exception into `[]`. -/
def searchSingleTerm (idx : TextIndex) (term : String) : List SearchResult :=
  if term.isEmpty then []
  else
    let cleanTerm := cleanSearchTerm term
    if cleanTerm.isEmpty then []
    else
      let res :=
        if startsEndsQuote cleanTerm then idx (phraseOf cleanTerm) optsPhrase
        else idx cleanTerm optsTerm
      match res with
      | .ok l => l
      | .error _ => []

/-- Insert one result into a score-descending list. -/
def insertDesc (r : SearchResult) : List SearchResult → List SearchResult
  | [] => [r]
  | x :: xs => if x.score < r.score then r :: x :: xs else x :: insertDesc r xs

/-- The source's `sort((a, b) => b.score - a.score)`: score-descending. -/
def sortByScoreDesc (l : List SearchResult) : List SearchResult :=
  l.foldr insertDesc []

/-- One step of the OR union's `Map` update: keep the entry's insertion
position, replace it when a higher score arrives, append unseen ids. -/
def upsertResult (acc : List SearchResult) (r : SearchResult) : List SearchResult :=
  if acc.any (fun x => x.id == r.id) then
    acc.map (fun x => if x.id == r.id && x.score < r.score then r else x)
  else acc ++ [r]

/-- Union of OR-part results keyed by document id, higher score winning. -/
def mergeOrResults (l : List SearchResult) : List SearchResult :=
  l.foldl upsertResult []

/-- Intersection loop of `handleAndSearch` over the remaining parts. The
source's early `break` on an empty intersection returns the same value. -/
def andLoop (idx : TextIndex) (results : List SearchResult) :
    List String → List SearchResult
  | [] => results
  | part :: rest =>
    if part.isEmpty then andLoop idx results rest
    else
      let partResults := searchSingleTerm idx part
      let partIds := partResults.map (fun r => r.id)
      andLoop idx (results.filter (fun r => partIds.contains r.id)) rest

/-- `handleAndSearch`: split on `\s+AND\s+`, seed with the first part,
intersect by id with each later part, sort descending. -/
def handleAndSearch (idx : TextIndex) (queryText : String) : List SearchResult :=
  let andParts := (jsSplitList andKw queryText.data).map (fun p => jsTrimS (String.mk p))
  match andParts with
  | [] => []
  | first :: rest => sortByScoreDesc (andLoop idx (searchSingleTerm idx first) rest)

mutual

/-- `executeBooleanSearch`: dispatch on the lowest-precedence operator
present (`OR`, then `AND`, then `NOT`); the final line is the unguarded
fallback `searchIndexInstance.search(queryText, { prefix: true })`. -/
def executeBooleanSearch (idx : TextIndex) : Nat → String → Except JsErr (List SearchResult)
  | 0, _ => .error .stackOverflow
  | fuel + 1, queryText =>
    if hasKw orKw queryText then handleOrSearch idx fuel queryText
    else if hasKw andKw queryText then .ok (handleAndSearch idx queryText)
    else if hasKw notKw queryText then handleNotSearch idx fuel queryText
    else
      match idx queryText optsSimple with
      | .ok l => .ok l
      | .error _ => .error .indexError

/-- `handleOrSearch`: split on `\s+OR\s+`, evaluate each part, union by id
keeping the higher score, sort descending. -/
def handleOrSearch (idx : TextIndex) : Nat → String → Except JsErr (List SearchResult)
  | 0, _ => .error .stackOverflow
  | fuel + 1, queryText =>
    let orParts := (jsSplitList orKw queryText.data).map (fun p => jsTrimS (String.mk p))
    match orPartsResults idx fuel orParts with
    | .error e => .error e
    | .ok ls => .ok (sortByScoreDesc (mergeOrResults ls.flatten))

/-- Per-part evaluation of `handleOrSearch`'s `forEach`: a part containing
`AND` or `NOT` recurses into the evaluator, otherwise it is a single term. -/
def orPartsResults (idx : TextIndex) : Nat → List String → Except JsErr (List (List SearchResult))
  | _, [] => .ok []
  | 0, _ :: _ => .error .stackOverflow
  | fuel + 1, part :: rest =>
    let pr : Except JsErr (List SearchResult) :=
      if hasKw andKw part || hasKw notKw part then executeBooleanSearch idx fuel part
      else
        let cleanPart := jsTrimS part
        if cleanPart.isEmpty then .ok [] else .ok (searchSingleTerm idx cleanPart)
    match pr with
    | .error e => .error e
    | .ok l =>
      match orPartsResults idx fuel rest with
      | .error e => .error e
      | .ok ls => .ok (l :: ls)

/-- `handleNotSearch`: the `"include NOT exclude"` form subtracts the exclude
ids from the include results; the `"NOT exclude"` form subtracts them from
the Text Index's empty-query result, queried outside any try/catch. -/
def handleNotSearch (idx : TextIndex) : Nat → String → Except JsErr (List SearchResult)
  | 0, _ => .error .stackOverflow
  | fuel + 1, queryText =>
    match notSplit queryText.data with
    | none =>
      match notAtStart queryText.data with
      | some exRaw =>
        let excludeTerm := cleanSearchTerm (String.mk exRaw)
        if excludeTerm.isEmpty then .ok []
        else
          match idx "" optsSimple with
          | .error _ => .error .indexError
          | .ok allResults =>
            let excludeResults := searchSingleTerm idx excludeTerm
            let excludeIds := excludeResults.map (fun r => r.id)
            .ok (allResults.filter (fun r => !excludeIds.contains r.id))
      | none => .ok []
    | some (includePart, excludePart) =>
      let includeRes : Except JsErr (List SearchResult) :=
        if (jsTrimL includePart).isEmpty then .ok []
        else if hasKwAux andKw false includePart || hasKwAux orKw false includePart then
          executeBooleanSearch idx fuel (String.mk includePart)
        else .ok (searchSingleTerm idx (String.mk includePart))
      match includeRes with
      | .error e => .error e
      | .ok includeResults =>
        let excludeResults :=
          if (jsTrimL excludePart).isEmpty then []
          else searchSingleTerm idx (String.mk excludePart)
        let excludeIds := excludeResults.map (fun r => r.id)
        .ok (includeResults.filter (fun r => !excludeIds.contains r.id))

end

/-- The orchestrator's query dispatch: boolean queries go to the evaluator,
plain queries to `searchSingleTerm`. -/
def evaluateSearchQuery (fuel : Nat) (idx : TextIndex) (q : String) :
    Except JsErr (List SearchResult) :=
  if containsBooleanOperators q then executeBooleanSearch idx fuel q
  else .ok (searchSingleTerm idx q)

theorem cleanSearchTerm_strips_ops_check : cleanSearchTerm "  solar AND  wind " = "solar wind" := rfl

theorem hasKw_or_hyphen_check : hasKw orKw "x-OR-y AND z" = true := rfl

theorem jsSplitList_or_basic_check : jsSplitList orKw "solar OR wind".data = ["solar".data, "wind".data] := rfl

theorem jsSplitList_or_nosep_check : jsSplitList orKw "x-OR-y AND z".data = ["x-OR-y AND z".data] := rfl

theorem notSplit_basic_check : notSplit "solar NOT wind".data = some ("solar".data, "wind".data) := rfl

theorem notSplit_bare_not_check : notSplit "NOT wind".data = none := rfl

theorem notAtStart_basic_check : notAtStart "NOT wind".data = some "wind".data := rfl

theorem cleanSearchTerm_quoted_check : cleanSearchTerm "\"solar power\"" = "\"solar power\"" := rfl

theorem startsEndsQuote_check : startsEndsQuote "\"solar power\"" = true := rfl

theorem phraseOf_check : phraseOf "\"solar power\"" = "solar power" := rfl

/-! ## The tree data model -/

/-- A content item attached to a node; only the fields the filter engine
reads are modelled (presentation-only fields such as `title` and `url` are
never inspected by the engine). `none` models a JS `undefined` field. -/
structure ContentItem where
  author : Option String := none
  creator : Option String := none
  source : Option String := none
  location : Option String := none
  country : Option String := none
  region : Option String := none
  date : Option String := none
  published_date : Option String := none
  publish_date : Option String := none
deriving DecidableEq

/-- The per-facet match-annotation flags a node can carry. A `none` field
models the flag never having been written onto the JS object. -/
structure MatchFlags where
  isSearchMatch : Option Bool := none
  hasMatchedDescendants : Option Bool := none
  isTypeMatch : Option Bool := none
  hasTypeMatchedDescendants : Option Bool := none
  isTagMatch : Option Bool := none
  hasTagMatchedDescendants : Option Bool := none
  isAuthorMatch : Option Bool := none
  hasAuthorMatchedDescendants : Option Bool := none
  isLocationMatch : Option Bool := none
  hasLocationMatchedDescendants : Option Bool := none
  isDateMatch : Option Bool := none
  hasDateMatchedDescendants : Option Bool := none
deriving DecidableEq

/-- A category/topic node of the hierarchy. `children = none` models a node
without a `children` field; `children = some []` an empty array. -/
inductive Node where
  | mk (name : String) (type : Option String) (tags : Option (List String))
      (urls : Option (List ContentItem)) (content : Option (List ContentItem))
      (items : Option (List ContentItem)) (children : Option (List Node))
      (flags : MatchFlags)

def Node.name : Node → String
  | .mk nm _ _ _ _ _ _ _ => nm

def Node.type : Node → Option String
  | .mk _ ty _ _ _ _ _ _ => ty

def Node.tags : Node → Option (List String)
  | .mk _ _ tg _ _ _ _ _ => tg

def Node.urls : Node → Option (List ContentItem)
  | .mk _ _ _ u _ _ _ _ => u

def Node.content : Node → Option (List ContentItem)
  | .mk _ _ _ _ c _ _ _ => c

def Node.items : Node → Option (List ContentItem)
  | .mk _ _ _ _ _ i _ _ => i

def Node.children : Node → Option (List Node)
  | .mk _ _ _ _ _ _ cs _ => cs

def Node.flags : Node → MatchFlags
  | .mk _ _ _ _ _ _ _ f => f

/-- JS `a || b` over two optional strings: `undefined` and `''` are falsy,
and the right operand is returned whenever the left is falsy. -/
def jsOrStr (a b : Option String) : Option String :=
  match a with
  | some s => if s.isEmpty then b else some s
  | none => b

/-- JS `node.urls || node.content || node.items || []`: arrays are always
truthy, so the first present field wins. -/
def pickItems (u c i : Option (List ContentItem)) : List ContentItem :=
  match u with
  | some l => l
  | none =>
    match c with
    | some l => l
    | none =>
      match i with
      | some l => l
      | none => []

def Node.getItems (n : Node) : List ContentItem :=
  pickItems n.urls n.content n.items

/-- JS truthiness of an optional string (for the `dateFrom || dateTo` and
`if (dateFrom)` guards). -/
def jsTruthyStr : Option String → Bool
  | none => false
  | some s => !s.isEmpty

/-! ## Date parsing (`parseDate`) and the JS Date values it produces -/

/-- A JS `Date` object as the engine observes it: either a calendar day or
an Invalid Date (whose comparisons are NaN comparisons, always false). -/
inductive JsDate where
  | valid (y : Nat) (m : Nat) (d : Nat)
  | invalid
deriving DecidableEq

/-- JS `<` between two Date objects (epoch order; on the date-only values
the engine builds this is lexicographic); any comparison with an Invalid
Date is false. -/
def jsDateLt : JsDate → JsDate → Bool
  | .valid y1 m1 d1, .valid y2 m2 d2 =>
    y1 < y2 || (y1 == y2 && (m1 < m2 || (m1 == m2 && d1 < d2)))
  | _, _ => false

/-- JS `>` between two Date objects. -/
def jsDateGt (a b : JsDate) : Bool := jsDateLt b a

def daysInMonth (y m : Nat) : Nat :=
  if m == 2 then
    if (y % 4 == 0 && y % 100 != 0) || y % 400 == 0 then 29 else 28
  else if m == 4 || m == 6 || m == 9 || m == 11 then 30
  else 31

def digitVal (c : Char) : Nat := c.toNat - '0'.toNat

/-- The JS `Date` constructor, modelled on the date-only ISO strings the
engine builds and compares (`YYYY-MM-DD`); the constructor validates the
calendar, so out-of-range fields give an Invalid Date. Strings of any other
shape (including datetime strings, which the engine never constructs) are
conservatively mapped to Invalid. -/
def jsNewDate (s : String) : JsDate :=
  match s.data with
  | [y1, y2, y3, y4, h1, m1, m2, h2, d1, d2] =>
    if y1.isDigit && y2.isDigit && y3.isDigit && y4.isDigit && h1 == '-' &&
        m1.isDigit && m2.isDigit && h2 == '-' && d1.isDigit && d2.isDigit then
      let y := ((digitVal y1 * 10 + digitVal y2) * 10 + digitVal y3) * 10 + digitVal y4
      let m := digitVal m1 * 10 + digitVal m2
      let d := digitVal d1 * 10 + digitVal d2
      if 1 ≤ m && m ≤ 12 && 1 ≤ d && d ≤ daysInMonth y m then .valid y m d
      else .invalid
    else .invalid
  | _ => .invalid

/-- Regex `^\d{4}-\d{2}-\d{2}` (a prefix match: longer strings pass too). -/
def matchesPrefixYMD : List Char → Bool
  | y1 :: y2 :: y3 :: y4 :: h1 :: m1 :: m2 :: h2 :: d1 :: d2 :: _ =>
    y1.isDigit && y2.isDigit && y3.isDigit && y4.isDigit && h1 == '-' &&
      m1.isDigit && m2.isDigit && h2 == '-' && d1.isDigit && d2.isDigit
  | _ => false

/-- Regex `^\d{4}-\d{2}$`. -/
def matchesYM : List Char → Bool
  | [y1, y2, y3, y4, h, m1, m2] =>
    y1.isDigit && y2.isDigit && y3.isDigit && y4.isDigit && h == '-' &&
      m1.isDigit && m2.isDigit
  | _ => false

/-- Regex `^\d{4}$`. -/
def matchesY : List Char → Bool
  | [y1, y2, y3, y4] => y1.isDigit && y2.isDigit && y3.isDigit && y4.isDigit
  | _ => false

/-- `parseDate`: trim, try `YYYY-MM-DD` (prefix), `YYYY-MM`, `YYYY` — these
three branches return the constructed Date without an Invalid-Date check —
then fall back to a generic date parse guarded by `isNaN`, else `null`.
A `none` argument models a falsy (`undefined`/empty) date field. -/
def parseDate : Option String → Option JsDate
  | none => none
  | some s0 =>
    if s0.isEmpty then none
    else
      let str := jsTrimS s0
      let l := str.data
      if matchesPrefixYMD l then some (jsNewDate str)
      else if matchesYM l then some (jsNewDate (String.mk (l ++ "-01".data)))
      else if matchesY l then some (jsNewDate (String.mk (l ++ "-01-01".data)))
      else
        match jsNewDate str with
        | .valid y m d => some (.valid y m d)
        | .invalid => none

/-- The per-item predicate of `filterByDateRange` and `markDateMatches`:
the item's first truthy date field, parsed; `null` never matches; an
Invalid Date sails past both bound checks (NaN comparisons) and matches. -/
def itemDateMatch (dateFrom dateTo : Option String) (it : ContentItem) : Bool :=
  let itemDateStr := jsOrStr (jsOrStr it.date it.published_date) it.publish_date
  match parseDate itemDateStr with
  | none => false
  | some itemDate =>
    let fromDate := if jsTruthyStr dateFrom then parseDate dateFrom else none
    let toDate := if jsTruthyStr dateTo then parseDate dateTo else none
    (match fromDate with
      | some f => !jsDateLt itemDate f
      | none => true) &&
    (match toDate with
      | some t => !jsDateGt itemDate t
      | none => true)

/-- The per-item predicate of `filterByAuthor` and `markAuthorMatches`. -/
def itemAuthorMatch (author : String) (it : ContentItem) : Bool :=
  jsOrStr (jsOrStr it.author it.creator) it.source == some author

/-- The per-item predicate of `filterByLocation` and `markLocationMatches`. -/
def itemLocationMatch (location : String) (it : ContentItem) : Bool :=
  jsOrStr (jsOrStr it.location it.country) it.region == some location

/-! ## Tree filters (the Tree Filter / Reconstructor per predicate) -/

mutual

/-- `filterBySearchNames`: keep a node iff its name is in the matched set or
a child survives; surviving children replace the child list, but when none
survived and the node itself matched, the original `children` value is
reattached unchanged. -/
def filterBySearchNames (matchedNames : List String) : Node → Option Node
  | .mk nm ty tg u c i cs f =>
    let nodeMatches := matchedNames.contains nm
    let filteredChildren :=
      match cs with
      | none => []
      | some l => filterBySearchNamesList matchedNames l
    if nodeMatches || !filteredChildren.isEmpty then
      some (.mk nm ty tg u c i
        (if !filteredChildren.isEmpty then some filteredChildren else cs) f)
    else none

def filterBySearchNamesList (matchedNames : List String) : List Node → List Node
  | [] => []
  | c :: rest =>
    match filterBySearchNames matchedNames c with
    | none => filterBySearchNamesList matchedNames rest
    | some m => m :: filterBySearchNamesList matchedNames rest

end

mutual

/-- `filterByType`: facet filter on `node.type === type`; a surviving node's
children are always exactly the surviving children. -/
def filterByType (t : String) : Node → Option Node
  | .mk nm ty tg u c i cs f =>
    let nodeMatches := ty == some t
    match cs with
    | some l =>
      let filteredChildren := filterByTypeList t l
      if nodeMatches || !filteredChildren.isEmpty then
        some (.mk nm ty tg u c i (some filteredChildren) f)
      else none
    | none => if nodeMatches then some (.mk nm ty tg u c i none f) else none

def filterByTypeList (t : String) : List Node → List Node
  | [] => []
  | c :: rest =>
    match filterByType t c with
    | none => filterByTypeList t rest
    | some m => m :: filterByTypeList t rest

end

mutual

/-- `filterByTag`: facet filter on `node.tags && node.tags.includes(tag)`. -/
def filterByTag (tag : String) : Node → Option Node
  | .mk nm ty tg u c i cs f =>
    let nodeMatches :=
      match tg with
      | some tgs => tgs.contains tag
      | none => false
    match cs with
    | some l =>
      let filteredChildren := filterByTagList tag l
      if nodeMatches || !filteredChildren.isEmpty then
        some (.mk nm ty tg u c i (some filteredChildren) f)
      else none
    | none => if nodeMatches then some (.mk nm ty tg u c i none f) else none

def filterByTagList (tag : String) : List Node → List Node
  | [] => []
  | c :: rest =>
    match filterByTag tag c with
    | none => filterByTagList tag rest
    | some m => m :: filterByTagList tag rest

end

mutual

/-- `filterByAuthor`: facet filter scanning the node's content items. -/
def filterByAuthor (author : String) : Node → Option Node
  | .mk nm ty tg u c i cs f =>
    let nodeMatches := (pickItems u c i).any (itemAuthorMatch author)
    match cs with
    | some l =>
      let filteredChildren := filterByAuthorList author l
      if nodeMatches || !filteredChildren.isEmpty then
        some (.mk nm ty tg u c i (some filteredChildren) f)
      else none
    | none => if nodeMatches then some (.mk nm ty tg u c i none f) else none

def filterByAuthorList (author : String) : List Node → List Node
  | [] => []
  | c :: rest =>
    match filterByAuthor author c with
    | none => filterByAuthorList author rest
    | some m => m :: filterByAuthorList author rest

end

mutual

/-- `filterByLocation`: facet filter scanning the node's content items. -/
def filterByLocation (location : String) : Node → Option Node
  | .mk nm ty tg u c i cs f =>
    let nodeMatches := (pickItems u c i).any (itemLocationMatch location)
    match cs with
    | some l =>
      let filteredChildren := filterByLocationList location l
      if nodeMatches || !filteredChildren.isEmpty then
        some (.mk nm ty tg u c i (some filteredChildren) f)
      else none
    | none => if nodeMatches then some (.mk nm ty tg u c i none f) else none

def filterByLocationList (location : String) : List Node → List Node
  | [] => []
  | c :: rest =>
    match filterByLocation location c with
    | none => filterByLocationList location rest
    | some m => m :: filterByLocationList location rest

end

mutual

/-- `filterByDateRange`: facet filter scanning the node's content items for
a date inside the (optionally bounded) range. -/
def filterByDateRange (dateFrom dateTo : Option String) : Node → Option Node
  | .mk nm ty tg u c i cs f =>
    let nodeMatches := (pickItems u c i).any (itemDateMatch dateFrom dateTo)
    match cs with
    | some l =>
      let filteredChildren := filterByDateRangeList dateFrom dateTo l
      if nodeMatches || !filteredChildren.isEmpty then
        some (.mk nm ty tg u c i (some filteredChildren) f)
      else none
    | none => if nodeMatches then some (.mk nm ty tg u c i none f) else none

def filterByDateRangeList (dateFrom dateTo : Option String) : List Node → List Node
  | [] => []
  | c :: rest =>
    match filterByDateRange dateFrom dateTo c with
    | none => filterByDateRangeList dateFrom dateTo rest
    | some m => m :: filterByDateRangeList dateFrom dateTo rest

end

/-! ## Match annotators -/

mutual

/-- `markSearchHighlightsByName`: writes `isSearchMatch` on every node it
visits; when some descendant matched it also writes
`hasMatchedDescendants := true` and forces `isSearchMatch := true`. Returns
the rewritten node together with `directMatch || hasMatchedDescendants`. -/
def markSearchHighlightsByName (matchedNames : List String) : Node → (Node × Bool)
  | .mk nm ty tg u c i cs f =>
    let directMatch := matchedNames.contains nm
    let rec2 :=
      match cs with
      | none => (none, false)
      | some l =>
        let p := markSearchList matchedNames l
        (some p.1, p.2)
    let f2 :=
      if rec2.2 then
        { f with isSearchMatch := some true, hasMatchedDescendants := some true }
      else { f with isSearchMatch := some directMatch }
    (.mk nm ty tg u c i rec2.1 f2, directMatch || rec2.2)

def markSearchList (matchedNames : List String) : List Node → (List Node × Bool)
  | [] => ([], false)
  | c :: rest =>
    let p := markSearchHighlightsByName matchedNames c
    let q := markSearchList matchedNames rest
    (p.1 :: q.1, p.2 || q.2)

end

mutual

/-- `markTypeMatches`: same propagation scheme with the type predicate and
the `isTypeMatch`/`hasTypeMatchedDescendants` flags. -/
def markTypeMatches (t : String) : Node → (Node × Bool)
  | .mk nm ty tg u c i cs f =>
    let directMatch := ty == some t
    let rec2 :=
      match cs with
      | none => (none, false)
      | some l =>
        let p := markTypeList t l
        (some p.1, p.2)
    let f2 :=
      if rec2.2 then
        { f with isTypeMatch := some true, hasTypeMatchedDescendants := some true }
      else { f with isTypeMatch := some directMatch }
    (.mk nm ty tg u c i rec2.1 f2, directMatch || rec2.2)

def markTypeList (t : String) : List Node → (List Node × Bool)
  | [] => ([], false)
  | c :: rest =>
    let p := markTypeMatches t c
    let q := markTypeList t rest
    (p.1 :: q.1, p.2 || q.2)

end

mutual

/-- `markTagMatches`. -/
def markTagMatches (tag : String) : Node → (Node × Bool)
  | .mk nm ty tg u c i cs f =>
    let directMatch :=
      match tg with
      | some tgs => tgs.contains tag
      | none => false
    let rec2 :=
      match cs with
      | none => (none, false)
      | some l =>
        let p := markTagList tag l
        (some p.1, p.2)
    let f2 :=
      if rec2.2 then
        { f with isTagMatch := some true, hasTagMatchedDescendants := some true }
      else { f with isTagMatch := some directMatch }
    (.mk nm ty tg u c i rec2.1 f2, directMatch || rec2.2)

def markTagList (tag : String) : List Node → (List Node × Bool)
  | [] => ([], false)
  | c :: rest =>
    let p := markTagMatches tag c
    let q := markTagList tag rest
    (p.1 :: q.1, p.2 || q.2)

end

mutual

/-- `markAuthorMatches`. -/
def markAuthorMatches (author : String) : Node → (Node × Bool)
  | .mk nm ty tg u c i cs f =>
    let directMatch := (pickItems u c i).any (itemAuthorMatch author)
    let rec2 :=
      match cs with
      | none => (none, false)
      | some l =>
        let p := markAuthorList author l
        (some p.1, p.2)
    let f2 :=
      if rec2.2 then
        { f with isAuthorMatch := some true, hasAuthorMatchedDescendants := some true }
      else { f with isAuthorMatch := some directMatch }
    (.mk nm ty tg u c i rec2.1 f2, directMatch || rec2.2)

def markAuthorList (author : String) : List Node → (List Node × Bool)
  | [] => ([], false)
  | c :: rest =>
    let p := markAuthorMatches author c
    let q := markAuthorList author rest
    (p.1 :: q.1, p.2 || q.2)

end

mutual

/-- `markLocationMatches`. -/
def markLocationMatches (location : String) : Node → (Node × Bool)
  | .mk nm ty tg u c i cs f =>
    let directMatch := (pickItems u c i).any (itemLocationMatch location)
    let rec2 :=
      match cs with
      | none => (none, false)
      | some l =>
        let p := markLocationList location l
        (some p.1, p.2)
    let f2 :=
      if rec2.2 then
        { f with isLocationMatch := some true, hasLocationMatchedDescendants := some true }
      else { f with isLocationMatch := some directMatch }
    (.mk nm ty tg u c i rec2.1 f2, directMatch || rec2.2)

def markLocationList (location : String) : List Node → (List Node × Bool)
  | [] => ([], false)
  | c :: rest =>
    let p := markLocationMatches location c
    let q := markLocationList location rest
    (p.1 :: q.1, p.2 || q.2)

end

mutual

/-- `markDateMatches`. -/
def markDateMatches (dateFrom dateTo : Option String) : Node → (Node × Bool)
  | .mk nm ty tg u c i cs f =>
    let directMatch := (pickItems u c i).any (itemDateMatch dateFrom dateTo)
    let rec2 :=
      match cs with
      | none => (none, false)
      | some l =>
        let p := markDateList dateFrom dateTo l
        (some p.1, p.2)
    let f2 :=
      if rec2.2 then
        { f with isDateMatch := some true, hasDateMatchedDescendants := some true }
      else { f with isDateMatch := some directMatch }
    (.mk nm ty tg u c i rec2.1 f2, directMatch || rec2.2)

def markDateList (dateFrom dateTo : Option String) : List Node → (List Node × Bool)
  | [] => ([], false)
  | c :: rest =>
    let p := markDateMatches dateFrom dateTo c
    let q := markDateList dateFrom dateTo rest
    (p.1 :: q.1, p.2 || q.2)

end

/-! ## Pipeline orchestrator (`getFilteredData`) -/

/-- One facet stage of the orchestrator: skipped when the facet value is the
sentinel `"all"`; otherwise the filter runs — and dereferences `null` when a
previous stage emptied the tree (`node.type` on `null` is a TypeError). -/
def typeStage (d : Option Node) (currentType : String) : Except JsErr (Option Node) :=
  if currentType != "all" then
    match d with
    | none => .error .typeError
    | some n => .ok (filterByType currentType n)
  else .ok d

/-- Tag stage; same skip/null-dereference behaviour as `typeStage`. -/
def tagStage (d : Option Node) (currentTag : String) : Except JsErr (Option Node) :=
  if currentTag != "all" then
    match d with
    | none => .error .typeError
    | some n => .ok (filterByTag currentTag n)
  else .ok d

/-- Author stage. -/
def authorStage (d : Option Node) (currentAuthor : String) : Except JsErr (Option Node) :=
  if currentAuthor != "all" then
    match d with
    | none => .error .typeError
    | some n => .ok (filterByAuthor currentAuthor n)
  else .ok d

/-- Location stage. -/
def locationStage (d : Option Node) (currentLocation : String) : Except JsErr (Option Node) :=
  if currentLocation != "all" then
    match d with
    | none => .error .typeError
    | some n => .ok (filterByLocation currentLocation n)
  else .ok d

/-- Date stage: active when either bound is truthy. -/
def dateStage (d : Option Node) (dateFrom dateTo : Option String) : Except JsErr (Option Node) :=
  if jsTruthyStr dateFrom || jsTruthyStr dateTo then
    match d with
    | none => .error .typeError
    | some n => .ok (filterByDateRange dateFrom dateTo n)
  else .ok d

/-- The search-annotation call: runs whenever a search was performed (the
matched-name set object is truthy even when empty); marking `null` is a
guarded no-op in the source. -/
def applySearchMarks (d : Option Node) : Option (List String) → Option Node
  | some s => d.map (fun n => (markSearchHighlightsByName s n).1)
  | none => d

/-- The chain of the five facet filter stages, threading the current tree
and propagating the first error. -/
def facetStages (d0 : Option Node)
    (currentType currentTag currentAuthor currentLocation : String)
    (dateFrom dateTo : Option String) : Except JsErr (Option Node) :=
  match typeStage d0 currentType with
  | .error e => .error e
  | .ok d1 =>
    match tagStage d1 currentTag with
    | .error e => .error e
    | .ok d2 =>
      match authorStage d2 currentAuthor with
      | .error e => .error e
      | .ok d3 =>
        match locationStage d3 currentLocation with
        | .error e => .error e
        | .ok d4 => dateStage d4 dateFrom dateTo

/-- The annotation passes of `getFilteredData`: search marks when a search
ran, then one mark pass per active facet, over whatever tree is left. -/
def markStages (d : Option Node) (matchedNames : Option (List String))
    (currentType currentTag currentAuthor currentLocation : String)
    (dateFrom dateTo : Option String) : Option Node :=
  let d6 := applySearchMarks d matchedNames
  let d7 := if currentType != "all" then d6.map (fun n => (markTypeMatches currentType n).1) else d6
  let d8 := if currentTag != "all" then d7.map (fun n => (markTagMatches currentTag n).1) else d7
  let d9 := if currentAuthor != "all" then d8.map (fun n => (markAuthorMatches currentAuthor n).1) else d8
  let d10 := if currentLocation != "all" then d9.map (fun n => (markLocationMatches currentLocation n).1) else d9
  if jsTruthyStr dateFrom || jsTruthyStr dateTo then
    d10.map (fun n => (markDateMatches dateFrom dateTo n).1)
  else d10

/-- `getFilteredData`: search stage, the five facet stages in order, then
the per-facet annotation passes over whatever tree is left. -/
def getFilteredData (fuel : Nat) (idx : TextIndex) (globalData : Node)
    (searchQuery currentType currentTag currentAuthor currentLocation : String)
    (dateFrom dateTo : Option String) : Except JsErr (Option Node) :=
  if !searchQuery.isEmpty then
    match evaluateSearchQuery fuel idx searchQuery with
    | .error e => .error e
    | .ok results =>
      let matchedNames := (results.map (fun r => r.name)).filter
        (fun nm => !nm.isEmpty && !(jsTrimS nm).isEmpty)
      match facetStages (filterBySearchNames matchedNames globalData)
          currentType currentTag currentAuthor currentLocation dateFrom dateTo with
      | .error e => .error e
      | .ok d5 =>
        .ok (markStages d5 (some matchedNames)
          currentType currentTag currentAuthor currentLocation dateFrom dateTo)
  else
    match facetStages (some globalData)
        currentType currentTag currentAuthor currentLocation dateFrom dateTo with
    | .error e => .error e
    | .ok d5 =>
      .ok (markStages d5 none
        currentType currentTag currentAuthor currentLocation dateFrom dateTo)

/-! ## Object-identity instrumentation for the frame property

JS object spread (`{...node, children: x}`) allocates a fresh object, while
reattaching `node.children` shares the original child objects. `ANode`
mirrors `Node` with an extra `orig` tag: `true` marks an object of the
original source tree, `false` a freshly allocated copy. The instrumented
filters reproduce the source's allocations exactly. -/

inductive ANode where
  | mk (orig : Bool) (name : String) (type : Option String) (tags : Option (List String))
      (urls : Option (List ContentItem)) (content : Option (List ContentItem))
      (items : Option (List ContentItem)) (children : Option (List ANode))
      (flags : MatchFlags)

def ANode.orig : ANode → Bool
  | .mk o _ _ _ _ _ _ _ _ => o

def ANode.children : ANode → Option (List ANode)
  | .mk _ _ _ _ _ _ _ cs _ => cs

mutual

/-- View a subtree of the original source tree: every node tagged `orig`. -/
def asOriginal : Node → ANode
  | .mk nm ty tg u c i cs f =>
    .mk true nm ty tg u c i
      (match cs with
        | none => none
        | some l => some (asOriginalList l)) f

def asOriginalList : List Node → List ANode
  | [] => []
  | c :: rest => asOriginal c :: asOriginalList rest

end

mutual

/-- Forget the instrumentation tags. -/
def ANode.erase : ANode → Node
  | .mk _ nm ty tg u c i cs f =>
    .mk nm ty tg u c i
      (match cs with
        | none => none
        | some l => some (eraseList l)) f

def eraseList : List ANode → List Node
  | [] => []
  | c :: rest => c.erase :: eraseList rest

end

mutual

/-- `filterBySearchNames` with allocation instrumentation: the returned node
is a fresh spread copy (`orig := false`), its children are either the fresh
surviving copies or — in the reattach branch — the original child objects. -/
def filterBySearchNamesA (matchedNames : List String) : Node → Option ANode
  | .mk nm ty tg u c i cs f =>
    let nodeMatches := matchedNames.contains nm
    let filteredChildren :=
      match cs with
      | none => []
      | some l => filterBySearchNamesListA matchedNames l
    if nodeMatches || !filteredChildren.isEmpty then
      some (.mk false nm ty tg u c i
        (if !filteredChildren.isEmpty then some filteredChildren
         else
           match cs with
           | none => none
           | some l => some (asOriginalList l)) f)
    else none

def filterBySearchNamesListA (matchedNames : List String) : List Node → List ANode
  | [] => []
  | c :: rest =>
    match filterBySearchNamesA matchedNames c with
    | none => filterBySearchNamesListA matchedNames rest
    | some m => m :: filterBySearchNamesListA matchedNames rest

end

mutual

/-- `filterByType` with allocation instrumentation: every returned node is a
fresh spread copy and its children are the fresh surviving copies. -/
def filterByTypeA (t : String) : Node → Option ANode
  | .mk nm ty tg u c i cs f =>
    let nodeMatches := ty == some t
    match cs with
    | some l =>
      let filteredChildren := filterByTypeListA t l
      if nodeMatches || !filteredChildren.isEmpty then
        some (.mk false nm ty tg u c i (some filteredChildren) f)
      else none
    | none => if nodeMatches then some (.mk false nm ty tg u c i none f) else none

def filterByTypeListA (t : String) : List Node → List ANode
  | [] => []
  | c :: rest =>
    match filterByTypeA t c with
    | none => filterByTypeListA t rest
    | some m => m :: filterByTypeListA t rest

end

mutual

/-- Does the tree contain a node object of the original source tree? -/
def ANode.containsOrig : ANode → Bool
  | .mk o _ _ _ _ _ _ cs _ =>
    o ||
      match cs with
      | none => false
      | some l => containsOrigList l

def containsOrigList : List ANode → Bool
  | [] => false
  | c :: rest => c.containsOrig || containsOrigList rest

end

mutual

/-- Instrumented `markSearchHighlightsByName` over the tagged tree. The
second component records whether a flag field was written onto an object of
the original source tree: the annotator assigns `isSearchMatch` to every
node it visits, so any visited `orig` node counts. -/
def markSearchHighlightsByNameA (matchedNames : List String) : ANode → (Bool × Bool)
  | .mk o nm _ _ _ _ _ cs _ =>
    let directMatch := matchedNames.contains nm
    let rec2 :=
      match cs with
      | none => (false, false)
      | some l => markSearchListA matchedNames l
    (directMatch || rec2.1, o || rec2.2)

def markSearchListA (matchedNames : List String) : List ANode → (Bool × Bool)
  | [] => (false, false)
  | c :: rest =>
    let p := markSearchHighlightsByNameA matchedNames c
    let q := markSearchListA matchedNames rest
    (p.1 || q.1, p.2 || q.2)

end

mutual

/-- Does a run of `filterBySearchNames` on this tree take the reattach
branch anywhere (a surviving node with a direct match, no surviving child,
and a non-empty original child list)? -/
def searchReattaches (matchedNames : List String) : Node → Bool
  | .mk nm _ _ _ _ _ cs _ =>
    let nodeMatches := matchedNames.contains nm
    let filteredChildren :=
      match cs with
      | none => []
      | some l => filterBySearchNamesList matchedNames l
    if nodeMatches || !filteredChildren.isEmpty then
      if filteredChildren.isEmpty then
        match cs with
        | none => false
        | some l => !l.isEmpty
      else
        match cs with
        | none => false
        | some l => searchReattachesList matchedNames l
    else false

def searchReattachesList (matchedNames : List String) : List Node → Bool
  | [] => false
  | c :: rest =>
    searchReattaches matchedNames c || searchReattachesList matchedNames rest

end

/-! ## Concrete fixtures -/

/-- A Text Index that returns no results and never throws. -/
def idxEmpty : TextIndex := fun _ _ => .ok []

/-- Scenario-A tree: Root with Energy holding Solar and Wind leaves. -/
def solarNode : Node :=
  .mk "Solar" none (some ["solar"]) none none none none {}

def windNode : Node :=
  .mk "Wind" none (some ["wind"]) none none none none {}

def energyNode : Node :=
  .mk "Energy" none none none none none (some [solarNode, windNode]) {}

def scenarioTree : Node :=
  .mk "Root" none none none none none (some [energyNode]) {}

/-- A leaf of type `article` (no `children` field). -/
def solarLeaf : Node := .mk "Solar" (some "article") none none none none none {}

/-- A leaf carrying the tag `solar`. -/
def tagLeaf : Node := .mk "Solar" none (some ["solar"]) none none none none {}

/-- A leaf with a content item by author `Jane`. -/
def authorLeaf : Node :=
  .mk "Doc" none none (some [{ author := some "Jane" }]) none none none {}

/-- A leaf with a content item located in `Kenya`. -/
def locationLeaf : Node :=
  .mk "Doc" none none (some [{ location := some "Kenya" }]) none none none {}

/-! ## C10 — fully inactive pipeline returns the input unchanged -/

/-- C10: with an empty query, every facet at the sentinel `"all"` and no date
bound, `getFilteredData` returns the input tree value itself: no filter stage
runs and no match-annotation flag is written onto any node (the returned tree
is the very `globalData` argument, flags included). -/
theorem c10_inactive_pipeline_identity (fuel : Nat) (idx : TextIndex) (tree : Node) :
    getFilteredData fuel idx tree "" "all" "all" "all" "all" none none =
      .ok (some tree) := rfl

/-! ## C2 — the sentinel deactivates a facet at the orchestrator, but the
filter functions themselves prune under `"all"` -/

/-- C2 counterexample: calling a facet filter directly with the sentinel
`"all"` does not return a structurally identical tree — each single-node
input below is pruned to `null` (node count 0, not 1), for all four facets. -/
theorem c2_filter_all_counterexample :
    filterByType "all" solarLeaf = none ∧
    filterByTag "all" tagLeaf = none ∧
    filterByAuthor "all" authorLeaf = none ∧
    filterByLocation "all" locationLeaf = none ∧
    (none : Option Node) ≠ some solarLeaf := by
  refine ⟨rfl, rfl, rfl, rfl, ?_⟩
  intro h
  exact Option.noConfusion h

/-- C2 amended: the sentinel `"all"` means the orchestrator skips the facet,
so each facet *stage* of the pipeline maps any tree to itself unchanged;
the facet filter functions themselves are never invoked with `"all"`. -/
theorem c2_inactive_facet_stage_identity (d : Option Node) :
    typeStage d "all" = .ok d ∧ tagStage d "all" = .ok d ∧
    authorStage d "all" = .ok d ∧ locationStage d "all" = .ok d :=
  ⟨rfl, rfl, rfl, rfl⟩

/-! ## C3 — search emptying the tree followed by an active facet throws -/

/-- A one-node tree used for the pipeline failure. -/
def rootOnly : Node := .mk "Root" none none none none none none {}

/-- C3: when the search stage prunes the whole tree (the query matches
nothing) and a type facet is also active, `getFilteredData` does not return
`null`: `filterByType` dereferences the `null` tree (`node.type`) and a
TypeError escapes. -/
theorem c3_null_then_facet_type_error :
    getFilteredData 10 idxEmpty rootOnly "zzz" "article" "all" "all" "all"
      none none = .error .typeError := rfl

/-! ## C5 — `"NOT <term>"` subtracts from the Text Index's empty-query result -/

mutual

/-- With an empty matched-name set the search filter prunes every node. -/
theorem filterBySearchNames_nil (n : Node) : filterBySearchNames [] n = none := by
  cases n with
  | mk nm ty tg u c i cs f =>
    cases cs with
    | none => simp [filterBySearchNames]
    | some l => simp [filterBySearchNames, filterBySearchNamesList_nil l]

theorem filterBySearchNamesList_nil (l : List Node) :
    filterBySearchNamesList [] l = [] := by
  cases l with
  | nil => simp [filterBySearchNamesList]
  | cons c rest =>
    simp [filterBySearchNamesList, filterBySearchNames_nil c,
      filterBySearchNamesList_nil rest]

end

/-- On the query `"NOT wind"`, `handleNotSearch` subtracts the `wind` ids
from the Text Index's empty-query result; when that result is the empty
array, the outcome is empty whatever the index returns for `wind`. -/
theorem handleNotSearch_notWind (idx : TextIndex) (fuel : Nat)
    (hidx : idx "" optsSimple = Except.ok []) :
    handleNotSearch idx (fuel + 1) "NOT wind" = .ok [] := by
  have h1 : notSplit ("NOT wind" : String).data = none := rfl
  have h2 : notAtStart ("NOT wind" : String).data = some ("wind" : String).data := rfl
  unfold handleNotSearch
  rw [h1, h2, hidx]
  rfl

/-- The evaluator on `"NOT wind"` with a contract-abiding index returns no
results at all. -/
theorem evaluateSearchQuery_notWind (idx : TextIndex) (fuel : Nat)
    (hidx : idx "" optsSimple = Except.ok []) :
    evaluateSearchQuery (fuel + 2) idx "NOT wind" = .ok [] := by
  have hc : containsBooleanOperators "NOT wind" = true := rfl
  unfold evaluateSearchQuery
  rw [hc]
  show executeBooleanSearch idx (fuel + 1 + 1) "NOT wind" = .ok []
  unfold executeBooleanSearch
  rw [show hasKw orKw "NOT wind" = false from rfl,
    show hasKw andKw "NOT wind" = false from rfl,
    show hasKw notKw "NOT wind" = true from rfl]
  simp only [Bool.false_eq_true, if_false, if_true]
  exact handleNotSearch_notWind idx fuel hidx

/-- C5 amended: `handleNotSearch` does take the exclusion base from the Text
Index's empty-query result, but the index contract makes that result the
empty array, so `"NOT wind"` yields an empty result set, the matched-name
set is empty, the search filter prunes the whole tree, and the pipeline
returns `null` — not everything-except-Wind. -/
theorem c5_not_query_empty_universal_amended (fuel : Nat) (idx : TextIndex) (tree : Node)
    (hidx : idx "" optsSimple = Except.ok []) :
    getFilteredData (fuel + 2) idx tree "NOT wind" "all" "all" "all" "all"
      none none = .ok none := by
  have hh := evaluateSearchQuery_notWind idx fuel hidx
  unfold getFilteredData
  rw [hh]
  simp only [List.map_nil, List.filter_nil, filterBySearchNames_nil]
  rfl

theorem c5_not_query_empty_universal_amended_witness :
    getFilteredData 2 idxEmpty scenarioTree "NOT wind" "all" "all" "all" "all"
      none none = .ok none :=
  c5_not_query_empty_universal_amended 0 idxEmpty scenarioTree rfl

/-- The Scenario-A Text Index: empty on the empty query (per the §6 index
contract) and matching the Wind document on `wind`. -/
def idxScenarioA : TextIndex := fun t _ =>
  if t = "wind" then .ok [⟨3, "Wind", 1⟩] else .ok []

/-- The tree the claim predicts for Scenario C: everything except Wind. -/
def scenarioTreeNoWind : Node :=
  .mk "Root" none none none none none
    (some [.mk "Energy" none none none none none (some [solarNode]) {}]) {}

/-- C5 counterexample: on the Scenario-A tree the pipeline result for
`"NOT wind"` is `null`, not the tree of every node except Wind. -/
theorem c5_not_query_scenario_counterexample :
    getFilteredData 2 idxScenarioA scenarioTree "NOT wind" "all" "all" "all" "all"
      none none = .ok none ∧
    (Except.ok none : Except JsErr (Option Node)) ≠ .ok (some scenarioTreeNoWind) := by
  constructor
  · rfl
  · intro h
    injection h with h'
    exact Option.noConfusion h'

/-! ## C9 — date-range semantics -/

/-- Digits are not whitespace. -/
theorem digit_not_ws (c : Char) (h : c.isDigit = true) : isWsChar c = false := by
  cases hw : isWsChar c
  · rfl
  · exfalso
    unfold isWsChar at hw
    simp [Char.isWhitespace] at hw
    rcases hw with ((h1 | h1) | h1) | h1 <;> (subst h1; exact absurd h (by decide))

/-- `dropWhile` is the identity when the head does not satisfy the test. -/
theorem dropWhile_id_of_head (p : Char → Bool) (l : List Char)
    (h : ∀ c, l.head? = some c → p c = false) : l.dropWhile p = l := by
  cases l with
  | nil => rfl
  | cons c cs =>
    rw [List.dropWhile_cons, h c rfl]
    simp

/-- JS `trim()` is the identity on strings with no edge whitespace. -/
theorem jsTrimL_id (l : List Char)
    (h1 : ∀ c, l.head? = some c → isWsChar c = false)
    (h2 : ∀ c, l.getLast? = some c → isWsChar c = false) : jsTrimL l = l := by
  unfold jsTrimL
  rw [dropWhile_id_of_head _ _ h1,
    dropWhile_id_of_head _ _ (by intro c hc; rw [List.head?_reverse] at hc; exact h2 c hc),
    List.reverse_reverse]

/-- A `matchesY` string is four digit characters. -/
theorem matchesY_inv (l : List Char) (h : matchesY l = true) :
    ∃ a b c d, l = [a, b, c, d] ∧ a.isDigit = true ∧ b.isDigit = true ∧
      c.isDigit = true ∧ d.isDigit = true := by
  match l, h with
  | [a, b, c, d], h => 
    refine ⟨a, b, c, d, rfl, ?_⟩
    simpa [matchesY, Bool.and_eq_true, and_assoc] using h
  | [], h => nomatch h
  | [_], h => nomatch h
  | [_, _], h => nomatch h
  | [_, _, _], h => nomatch h
  | _ :: _ :: _ :: _ :: _ :: _, h => nomatch h

/-- JS Date comparison is irreflexive (NaN for Invalid, strict otherwise). -/
theorem jsDateLt_irrefl (d : JsDate) : jsDateLt d d = false := by
  cases d with
  | invalid => rfl
  | valid y m dd => simp [jsDateLt]

/-- A nonempty character list makes a nonempty string. -/
theorem strMk_cons_not_isEmpty (c : Char) (cs : List Char) :
    (String.mk (c :: cs)).isEmpty = false := by
  cases he : (String.mk (c :: cs)).isEmpty
  · rfl
  · exfalso
    have h2 := (String.isEmpty_iff _).mp he
    have h3 : (String.mk (c :: cs)).data = ("" : String).data := by rw [h2]
    nomatch h3

/-- C9: the date filter matches a year-only item date `"2022"` against the
range `2022-01-01 .. 2022-12-31` (Scenario D); year-only dates are
normalized to January 1 of that year; a date string that parses under none
of the recognized formats never matches any range; and both range bounds
are inclusive (a date equal to both bounds matches). -/
theorem c9_date_range_rules :
    (filterByDateRange (some "2022-01-01") (some "2022-12-31")
        (Node.mk "Doc" none none (some [{ date := some "2022" }]) none none none {}) =
      some (Node.mk "Doc" none none (some [{ date := some "2022" }]) none none none {})) ∧
    (∀ s : String, matchesY s.data = true →
        ∃ y, parseDate (some s) = some (.valid y 1 1)) ∧
    (∀ (it : ContentItem) (dateFrom dateTo : Option String),
        parseDate (jsOrStr (jsOrStr it.date it.published_date) it.publish_date) = none →
        itemDateMatch dateFrom dateTo it = false) ∧
    (∀ (it : ContentItem) (b : String) (d : JsDate),
        parseDate (some b) = some d →
        parseDate (jsOrStr (jsOrStr it.date it.published_date) it.publish_date) = some d →
        itemDateMatch (some b) (some b) it = true) := by
  refine ⟨rfl, ?_, ?_, ?_⟩
  · intro s h
    obtain ⟨sd⟩ := s
    obtain ⟨a, b, c, d, hl, ha, hb, hc, hd⟩ := matchesY_inv sd h
    subst hl
    have hne : (String.mk [a, b, c, d]).isEmpty = false := strMk_cons_not_isEmpty _ _
    have htr : jsTrimL [a, b, c, d] = [a, b, c, d] := by
      refine jsTrimL_id _ ?_ ?_
      · intro c0 hc0
        injection hc0 with h0
        subst h0
        exact digit_not_ws _ ha
      · intro c0 hc0
        injection hc0 with h0
        subst h0
        exact digit_not_ws _ hd
    refine ⟨((digitVal a * 10 + digitVal b) * 10 + digitVal c) * 10 + digitVal d, ?_⟩
    show parseDate (some (String.mk [a, b, c, d])) = _
    simp only [parseDate]
    rw [hne]
    simp only [Bool.false_eq_true, if_false, jsTrimS]
    rw [htr]
    rw [show matchesPrefixYMD [a, b, c, d] = false from rfl,
      show matchesYM [a, b, c, d] = false from rfl,
      show matchesY [a, b, c, d] = (a.isDigit && b.isDigit && c.isDigit && d.isDigit) from rfl,
      ha, hb, hc, hd]
    simp only [Bool.false_eq_true, if_false, Bool.and_self, if_true]
    rw [show (String.mk ([a, b, c, d] ++ ("-01-01" : String).data)) =
        String.mk [a, b, c, d, '-', '0', '1', '-', '0', '1'] from rfl]
    unfold jsNewDate
    simp only [ha, hb, hc, hd]
    rfl
  · intro it dateFrom dateTo h
    simp only [itemDateMatch]
    rw [h]
  · intro it b d h1 h2
    have hbne : b.isEmpty = false := by
      cases he : b.isEmpty
      · rfl
      · exfalso
        have h2 := (String.isEmpty_iff _).mp he
        rw [h2] at h1
        rw [show parseDate (some "") = none from rfl] at h1
        nomatch h1
    simp only [itemDateMatch, h2, jsTruthyStr, hbne, Bool.not_false, if_true, h1,
      jsDateGt, jsDateLt_irrefl, Bool.not_false, Bool.and_self]

theorem c9_date_range_rules_witness :
    (∃ y, parseDate (some "2023") = some (JsDate.valid y 1 1)) ∧
    itemDateMatch (some "2022-05-05") (some "2022-05-05")
      { date := some "2022-05-05" } = true :=
  ⟨c9_date_range_rules.2.1 "2023" rfl,
   c9_date_range_rules.2.2.2 { date := some "2022-05-05" } "2022-05-05"
     (JsDate.valid 2022 5 5) rfl rfl⟩

/-! ## C1 — reconstruction rule of the tree filters -/

/-- The surviving-children list is empty exactly when every child is
pruned. -/
theorem filterBySearchNamesList_eq_nil_iff (s : List String) (l : List Node) :
    filterBySearchNamesList s l = [] ↔ ∀ c ∈ l, filterBySearchNames s c = none := by
  induction l with
  | nil => simp [filterBySearchNamesList]
  | cons c rest ih =>
    cases hfc : filterBySearchNames s c with
    | none => simp [filterBySearchNamesList, hfc, ih]
    | some m => simp [filterBySearchNamesList, hfc]

/-- Nonemptiness of the surviving-children list as an existence statement. -/
theorem filterBySearchNamesList_isEmpty_false_iff (s : List String) (l : List Node) :
    (filterBySearchNamesList s l).isEmpty = false ↔
      ∃ c ∈ l, (filterBySearchNames s c).isSome = true := by
  constructor
  · intro h
    by_contra hno
    push_neg at hno
    have hall : ∀ c ∈ l, filterBySearchNames s c = none := by
      intro c hcmem
      have hc := hno c hcmem
      cases hx : filterBySearchNames s c with
      | none => rfl
      | some m => rw [hx] at hc; exact absurd rfl hc
    rw [(filterBySearchNamesList_eq_nil_iff s l).mpr hall] at h
    nomatch h
  · rintro ⟨c, hcmem, hcsome⟩
    cases he : (filterBySearchNamesList s l).isEmpty
    · rfl
    · exfalso
      have h0 : filterBySearchNamesList s l = [] := by
        simpa using he
      have hnone := (filterBySearchNamesList_eq_nil_iff s l).mp h0 c hcmem
      rw [hnone] at hcsome
      nomatch hcsome

/-- C1: a node survives the search filter iff its name is in the matched set
or some child survives; when children survive they become the new child
list; when none survive (but the node matched) the original `children` value
is reattached; and every facet filter's surviving node carries exactly the
surviving children, never the original list. -/
theorem c1_tree_filter_children_rule :
    (∀ (s : List String) (n : Node),
        (filterBySearchNames s n).isSome = true ↔
          (s.contains n.name = true ∨
            ∃ c ∈ n.children.getD [], (filterBySearchNames s c).isSome = true)) ∧
    (∀ (s : List String) (n m : Node), filterBySearchNames s n = some m →
        (filterBySearchNamesList s (n.children.getD []) ≠ [] →
          m.children = some (filterBySearchNamesList s (n.children.getD []))) ∧
        (filterBySearchNamesList s (n.children.getD []) = [] →
          m.children = n.children)) ∧
    (∀ (t : String) (n m : Node), filterByType t n = some m →
        m.children = n.children.map (filterByTypeList t)) ∧
    (∀ (tg : String) (n m : Node), filterByTag tg n = some m →
        m.children = n.children.map (filterByTagList tg)) ∧
    (∀ (au : String) (n m : Node), filterByAuthor au n = some m →
        m.children = n.children.map (filterByAuthorList au)) ∧
    (∀ (lo : String) (n m : Node), filterByLocation lo n = some m →
        m.children = n.children.map (filterByLocationList lo)) ∧
    (∀ (df dt : Option String) (n m : Node), filterByDateRange df dt n = some m →
        m.children = n.children.map (filterByDateRangeList df dt)) := by
  refine ⟨?_, ?_, ?_, ?_, ?_, ?_, ?_⟩
  · intro s n
    obtain ⟨nm, ty, tg, u, c, i, cs, f⟩ := n
    cases cs with
    | none =>
      cases hcon : s.contains nm with
      | false => simp [filterBySearchNames, Node.name, Node.children, hcon]
      | true => simp [filterBySearchNames, Node.name, Node.children, hcon]
    | some l =>
      have hiff := filterBySearchNamesList_isEmpty_false_iff s l
      cases hcon : s.contains nm with
      | false =>
        simp only [filterBySearchNames, Node.name, Node.children, hcon,
          Bool.false_or, Option.getD_some]
        cases he : (filterBySearchNamesList s l).isEmpty with
        | false =>
          simp only [he, Bool.not_false, if_true, Option.isSome_some, true_iff]
          exact Or.inr (hiff.mp he)
        | true =>
          simp only [he, Bool.not_true, Bool.false_eq_true, if_false, Option.isSome_none]
          constructor
          · intro hx
            nomatch hx
          · rintro (hx | hx)
            · exact hx
            · have := hiff.mpr hx
              rw [he] at this
              nomatch this
      | true =>
        simp only [filterBySearchNames, Node.name, Node.children, hcon,
          Bool.true_or, if_true, Option.isSome_some, true_iff, Option.getD_some]
        exact Or.inl trivial
  · intro s n m h
    obtain ⟨nm, ty, tg, u, c, i, cs, f⟩ := n
    cases cs with
    | none =>
      simp only [filterBySearchNames, Node.children, Option.getD_none] at h ⊢
      refine ⟨fun hne => absurd rfl hne, fun _ => ?_⟩
      split at h
      · injection h with h2
        rw [← h2]
        rfl
      · exact Option.noConfusion h
    | some l =>
      simp only [filterBySearchNames, Node.children, Option.getD_some] at h ⊢
      cases hfc : filterBySearchNamesList s l with
      | nil =>
        rw [hfc] at h
        refine ⟨fun hne => absurd rfl hne, fun _ => ?_⟩
        split at h
        · injection h with h2
          rw [← h2]
          rfl
        · exact Option.noConfusion h
      | cons x xs =>
        rw [hfc] at h
        refine ⟨fun _ => ?_, fun hx => ?_⟩
        · split at h
          · injection h with h2
            rw [← h2]
            rfl
          · exact Option.noConfusion h
        · nomatch hx
  · intro t n m h
    obtain ⟨nm, ty, tg, u, c, i, cs, f⟩ := n
    cases cs with
    | none =>
      simp only [filterByType, Node.children, Option.map_none'] at h ⊢
      split at h
      · injection h with h2
        rw [← h2]
      · exact Option.noConfusion h
    | some l =>
      simp only [filterByType, Node.children, Option.map_some'] at h ⊢
      split at h
      · injection h with h2
        rw [← h2]
      · exact Option.noConfusion h
  · intro tg0 n m h
    obtain ⟨nm, ty, tg, u, c, i, cs, f⟩ := n
    cases cs with
    | none =>
      simp only [filterByTag, Node.children, Option.map_none'] at h ⊢
      split at h
      · injection h with h2
        rw [← h2]
      · exact Option.noConfusion h
    | some l =>
      simp only [filterByTag, Node.children, Option.map_some'] at h ⊢
      split at h
      · injection h with h2
        rw [← h2]
      · exact Option.noConfusion h
  · intro au n m h
    obtain ⟨nm, ty, tg, u, c, i, cs, f⟩ := n
    cases cs with
    | none =>
      simp only [filterByAuthor, Node.children, Option.map_none'] at h ⊢
      split at h
      · injection h with h2
        rw [← h2]
      · exact Option.noConfusion h
    | some l =>
      simp only [filterByAuthor, Node.children, Option.map_some'] at h ⊢
      split at h
      · injection h with h2
        rw [← h2]
      · exact Option.noConfusion h
  · intro lo n m h
    obtain ⟨nm, ty, tg, u, c, i, cs, f⟩ := n
    cases cs with
    | none =>
      simp only [filterByLocation, Node.children, Option.map_none'] at h ⊢
      split at h
      · injection h with h2
        rw [← h2]
      · exact Option.noConfusion h
    | some l =>
      simp only [filterByLocation, Node.children, Option.map_some'] at h ⊢
      split at h
      · injection h with h2
        rw [← h2]
      · exact Option.noConfusion h
  · intro df dt n m h
    obtain ⟨nm, ty, tg, u, c, i, cs, f⟩ := n
    cases cs with
    | none =>
      simp only [filterByDateRange, Node.children, Option.map_none'] at h ⊢
      split at h
      · injection h with h2
        rw [← h2]
      · exact Option.noConfusion h
    | some l =>
      simp only [filterByDateRange, Node.children, Option.map_some'] at h ⊢
      split at h
      · injection h with h2
        rw [← h2]
      · exact Option.noConfusion h

/-- A category node whose only child does not match the search. -/
def catChild : Node := .mk "Leaf" none none none none none none {}

def catNode : Node := .mk "Cat" none none none none none (some [catChild]) {}

theorem c1_tree_filter_children_rule_witness :
    (∃ m, filterBySearchNames ["Cat"] catNode = some m ∧
      m.children = catNode.children) ∧
    (∃ m, filterByType "article" solarLeaf = some m ∧
      m.children = solarLeaf.children.map (filterByTypeList "article")) :=
  ⟨⟨catNode, rfl,
    (c1_tree_filter_children_rule.2.1 ["Cat"] catNode catNode rfl).2 rfl⟩,
   ⟨solarLeaf, rfl,
    c1_tree_filter_children_rule.2.2.1 "article" solarLeaf solarLeaf rfl⟩⟩

/-! ## C6 — annotator return value and flag propagation -/

mutual

/-- Does this node or some descendant match the search set directly? -/
def anyNameMatch (s : List String) : Node → Bool
  | .mk nm _ _ _ _ _ cs _ =>
    s.contains nm ||
      match cs with
      | none => false
      | some l => anyNameMatchList s l

def anyNameMatchList (s : List String) : List Node → Bool
  | [] => false
  | c :: rest => anyNameMatch s c || anyNameMatchList s rest

end

/-- Does some descendant (strictly below this node) match the search set? -/
def childrenAnyNameMatch (s : List String) (n : Node) : Bool :=
  match n.children with
  | none => false
  | some l => anyNameMatchList s l

mutual

/-- Does this node or some descendant match the type directly? -/
def anyTypeMatch (t : String) : Node → Bool
  | .mk _ ty _ _ _ _ cs _ =>
    (ty == some t) ||
      match cs with
      | none => false
      | some l => anyTypeMatchList t l

def anyTypeMatchList (t : String) : List Node → Bool
  | [] => false
  | c :: rest => anyTypeMatch t c || anyTypeMatchList t rest

end

/-- Does some descendant (strictly below this node) match the type? -/
def childrenAnyTypeMatch (t : String) (n : Node) : Bool :=
  match n.children with
  | none => false
  | some l => anyTypeMatchList t l

mutual

theorem markSearch_snd (s : List String) (n : Node) :
    (markSearchHighlightsByName s n).2 = anyNameMatch s n := by
  obtain ⟨nm, ty, tg, u, c, i, cs, f⟩ := n
  cases cs with
  | none => simp [markSearchHighlightsByName, anyNameMatch]
  | some l =>
    simp [markSearchHighlightsByName, anyNameMatch, markSearchList_snd s l]

theorem markSearchList_snd (s : List String) (l : List Node) :
    (markSearchList s l).2 = anyNameMatchList s l := by
  cases l with
  | nil => simp [markSearchList, anyNameMatchList]
  | cons c rest =>
    simp [markSearchList, anyNameMatchList, markSearch_snd s c,
      markSearchList_snd s rest]

end

mutual

theorem markType_snd (t : String) (n : Node) :
    (markTypeMatches t n).2 = anyTypeMatch t n := by
  obtain ⟨nm, ty, tg, u, c, i, cs, f⟩ := n
  cases cs with
  | none => simp [markTypeMatches, anyTypeMatch]
  | some l =>
    simp [markTypeMatches, anyTypeMatch, markTypeList_snd t l]

theorem markTypeList_snd (t : String) (l : List Node) :
    (markTypeList t l).2 = anyTypeMatchList t l := by
  cases l with
  | nil => simp [markTypeList, anyTypeMatchList]
  | cons c rest =>
    simp [markTypeList, anyTypeMatchList, markType_snd t c, markTypeList_snd t rest]

end

/-- C6: the annotator returns true iff the node or some descendant matched
directly; `isSearchMatch` ends up as direct-match OR descendant-match (the
forcing rule); a matching descendant sets `hasMatchedDescendants := true`;
and a node with no direct and no descendant match (starting with an unset
flag) ends the run with `isSearchMatch = false` and `hasMatchedDescendants`
never written. The same holds for the type annotator and its flags. -/
theorem c6_annotator_flags :
    (∀ (s : List String) (n : Node),
        (markSearchHighlightsByName s n).2 = anyNameMatch s n) ∧
    (∀ (s : List String) (n : Node),
        ((markSearchHighlightsByName s n).1).flags.isSearchMatch =
          some (s.contains n.name || childrenAnyNameMatch s n)) ∧
    (∀ (s : List String) (n : Node), childrenAnyNameMatch s n = true →
        ((markSearchHighlightsByName s n).1).flags.hasMatchedDescendants = some true) ∧
    (∀ (s : List String) (n : Node),
        n.flags.hasMatchedDescendants = none → s.contains n.name = false →
        childrenAnyNameMatch s n = false →
        ((markSearchHighlightsByName s n).1).flags.isSearchMatch = some false ∧
        ((markSearchHighlightsByName s n).1).flags.hasMatchedDescendants = none) ∧
    (∀ (t : String) (n : Node),
        (markTypeMatches t n).2 = anyTypeMatch t n) ∧
    (∀ (t : String) (n : Node),
        ((markTypeMatches t n).1).flags.isTypeMatch =
          some ((n.type == some t) || childrenAnyTypeMatch t n)) ∧
    (∀ (t : String) (n : Node), childrenAnyTypeMatch t n = true →
        ((markTypeMatches t n).1).flags.hasTypeMatchedDescendants = some true) ∧
    (∀ (t : String) (n : Node),
        n.flags.hasTypeMatchedDescendants = none → (n.type == some t) = false →
        childrenAnyTypeMatch t n = false →
        ((markTypeMatches t n).1).flags.isTypeMatch = some false ∧
        ((markTypeMatches t n).1).flags.hasTypeMatchedDescendants = none) := by
  refine ⟨markSearch_snd, ?_, ?_, ?_, markType_snd, ?_, ?_, ?_⟩
  · intro s n
    obtain ⟨nm, ty, tg, u, c, i, cs, f⟩ := n
    cases cs with
    | none =>
      simp [markSearchHighlightsByName, childrenAnyNameMatch, Node.children,
        Node.name, Node.flags]
    | some l =>
      have hl := markSearchList_snd s l
      cases hb : anyNameMatchList s l with
      | false =>
        simp [markSearchHighlightsByName, childrenAnyNameMatch, Node.children,
          Node.name, Node.flags, hl, hb]
      | true =>
        simp [markSearchHighlightsByName, childrenAnyNameMatch, Node.children,
          Node.name, Node.flags, hl, hb]
  · intro s n hdesc
    obtain ⟨nm, ty, tg, u, c, i, cs, f⟩ := n
    cases cs with
    | none =>
      simp [childrenAnyNameMatch, Node.children] at hdesc
    | some l =>
      simp only [childrenAnyNameMatch, Node.children] at hdesc
      simp [markSearchHighlightsByName, Node.flags, markSearchList_snd s l, hdesc]
  · intro s n hflag hcon hdesc
    obtain ⟨nm, ty, tg, u, c, i, cs, f⟩ := n
    simp only [Node.name] at hcon
    have hcon2 : nm ∉ s := by simpa using hcon
    simp only [Node.flags] at hflag
    cases cs with
    | none =>
      simp [markSearchHighlightsByName, Node.flags, hcon2, hflag]
    | some l =>
      simp only [childrenAnyNameMatch, Node.children] at hdesc
      simp [markSearchHighlightsByName, Node.flags, markSearchList_snd s l,
        hdesc, hcon2, hflag]
  · intro t n
    obtain ⟨nm, ty, tg, u, c, i, cs, f⟩ := n
    cases cs with
    | none =>
      simp [markTypeMatches, childrenAnyTypeMatch, Node.children, Node.type,
        Node.flags]
    | some l =>
      have hl := markTypeList_snd t l
      cases hb : anyTypeMatchList t l with
      | false =>
        simp [markTypeMatches, childrenAnyTypeMatch, Node.children, Node.type,
          Node.flags, hl, hb]
      | true =>
        simp [markTypeMatches, childrenAnyTypeMatch, Node.children, Node.type,
          Node.flags, hl, hb]
  · intro t n hdesc
    obtain ⟨nm, ty, tg, u, c, i, cs, f⟩ := n
    cases cs with
    | none =>
      simp [childrenAnyTypeMatch, Node.children] at hdesc
    | some l =>
      simp only [childrenAnyTypeMatch, Node.children] at hdesc
      simp [markTypeMatches, Node.flags, markTypeList_snd t l, hdesc]
  · intro t n hflag hcon hdesc
    obtain ⟨nm, ty, tg, u, c, i, cs, f⟩ := n
    simp only [Node.type] at hcon
    simp only [Node.flags] at hflag
    cases cs with
    | none =>
      simp [markTypeMatches, Node.flags, hcon, hflag]
    | some l =>
      simp only [childrenAnyTypeMatch, Node.children] at hdesc
      simp [markTypeMatches, Node.flags, markTypeList_snd t l, hdesc, hcon, hflag]

theorem c6_annotator_flags_witness :
    ((markSearchHighlightsByName ["Leaf"] catNode).1).flags.hasMatchedDescendants =
      some true ∧
    (((markSearchHighlightsByName ["Solar"] windNode).1).flags.isSearchMatch =
      some false ∧
     ((markSearchHighlightsByName ["Solar"] windNode).1).flags.hasMatchedDescendants =
      none) :=
  ⟨c6_annotator_flags.2.2.1 ["Leaf"] catNode rfl,
   c6_annotator_flags.2.2.2.1 ["Solar"] windNode rfl rfl rfl⟩

/-! ## C4 — which nodes of the filter output are original objects -/

mutual

theorem asOriginal_erase (n : Node) : (asOriginal n).erase = n := by
  obtain ⟨nm, ty, tg, u, c, i, cs, f⟩ := n
  cases cs with
  | none => simp [asOriginal, ANode.erase]
  | some l => simp [asOriginal, ANode.erase, asOriginalList_erase l]

theorem asOriginalList_erase (l : List Node) : eraseList (asOriginalList l) = l := by
  cases l with
  | nil => simp [asOriginalList, eraseList]
  | cons c rest =>
    simp [asOriginalList, eraseList, asOriginal_erase c, asOriginalList_erase rest]

end

theorem eraseList_isEmpty (l : List ANode) : (eraseList l).isEmpty = l.isEmpty := by
  cases l <;> simp [eraseList]

mutual

/-- The instrumented search filter erases to the plain one. -/
theorem filterBySearchNamesA_erase (s : List String) (n : Node) :
    (filterBySearchNamesA s n).map ANode.erase = filterBySearchNames s n := by
  obtain ⟨nm, ty, tg, u, c, i, cs, f⟩ := n
  cases cs with
  | none =>
    cases hcon : s.contains nm <;>
      simp [filterBySearchNamesA, filterBySearchNames, ANode.erase, hcon]
  | some l =>
    have hl := filterBySearchNamesListA_erase s l
    have hpe : (filterBySearchNamesList s l).isEmpty =
        (filterBySearchNamesListA s l).isEmpty := by
      rw [← hl, eraseList_isEmpty]
    cases hcon : s.contains nm <;>
      cases hae : (filterBySearchNamesListA s l).isEmpty <;>
        simp [filterBySearchNamesA, filterBySearchNames, ANode.erase, hcon, hae,
          hpe, hl, asOriginalList_erase]

theorem filterBySearchNamesListA_erase (s : List String) (l : List Node) :
    eraseList (filterBySearchNamesListA s l) = filterBySearchNamesList s l := by
  cases l with
  | nil => simp [filterBySearchNamesListA, filterBySearchNamesList, eraseList]
  | cons c rest =>
    have hc := filterBySearchNamesA_erase s c
    have hr := filterBySearchNamesListA_erase s rest
    cases hfc : filterBySearchNamesA s c with
    | none =>
      rw [hfc] at hc
      simp only [Option.map_none'] at hc
      simp [filterBySearchNamesListA, filterBySearchNamesList, hfc, ← hc, hr]
    | some m =>
      rw [hfc] at hc
      simp only [Option.map_some'] at hc
      simp [filterBySearchNamesListA, filterBySearchNamesList, hfc, ← hc, hr, eraseList]

end

mutual

/-- The instrumented type filter never emits an original node object. -/
theorem filterByTypeA_noOrig (t : String) (n : Node) :
    ∀ a, filterByTypeA t n = some a → a.containsOrig = false := by
  intro a h
  obtain ⟨nm, ty, tg, u, c, i, cs, f⟩ := n
  cases cs with
  | none =>
    simp only [filterByTypeA] at h
    split at h
    · injection h with h2
      rw [← h2]
      simp [ANode.containsOrig]
    · exact Option.noConfusion h
  | some l =>
    simp only [filterByTypeA] at h
    split at h
    · injection h with h2
      rw [← h2]
      simp [ANode.containsOrig, filterByTypeListA_noOrig t l]
    · exact Option.noConfusion h

theorem filterByTypeListA_noOrig (t : String) (l : List Node) :
    containsOrigList (filterByTypeListA t l) = false := by
  cases l with
  | nil => simp [filterByTypeListA, containsOrigList]
  | cons c rest =>
    cases hfc : filterByTypeA t c with
    | none => simp [filterByTypeListA, hfc, filterByTypeListA_noOrig t rest]
    | some m =>
      simp [filterByTypeListA, hfc, containsOrigList,
        filterByTypeA_noOrig t c m hfc, filterByTypeListA_noOrig t rest]

end

mutual

/-- The instrumented search filter: the emitted root is always a fresh
object, and the output contains an original object only if the run took the
reattach branch somewhere. -/
theorem filterBySearchNamesA_noOrig (s : List String) (n : Node) :
    ∀ a, filterBySearchNamesA s n = some a →
      a.orig = false ∧ (searchReattaches s n = false → a.containsOrig = false) := by
  intro a h
  obtain ⟨nm, ty, tg, u, c, i, cs, f⟩ := n
  cases cs with
  | none =>
    simp only [filterBySearchNamesA] at h
    split at h
    · injection h with h2
      rw [← h2]
      refine ⟨rfl, fun _ => ?_⟩
      simp [ANode.containsOrig]
    · exact Option.noConfusion h
  | some l =>
    have hpe : (filterBySearchNamesList s l).isEmpty =
        (filterBySearchNamesListA s l).isEmpty := by
      rw [← filterBySearchNamesListA_erase s l, eraseList_isEmpty]
    simp only [filterBySearchNamesA] at h
    cases hae : (filterBySearchNamesListA s l).isEmpty with
    | true =>
      rw [hae] at h
      split at h
      · rename_i hcond
        have hcon : s.contains nm = true := by simpa using hcond
        injection h with h2
        rw [← h2]
        refine ⟨rfl, fun hr => ?_⟩
        simp only [searchReattaches, hpe, hae] at hr
        have hl0 : l = [] := by
          cases l with
          | nil => rfl
          | cons y ys => simp [show nm ∈ s by simpa using hcon] at hr
        subst hl0
        simp [ANode.containsOrig, asOriginalList, containsOrigList]
      · exact Option.noConfusion h
    | false =>
      rw [hae] at h
      split at h
      · injection h with h2
        rw [← h2]
        refine ⟨rfl, fun hr => ?_⟩
        simp only [searchReattaches, hpe, hae] at hr
        simp only [Bool.not_false, Bool.or_true, Bool.false_eq_true, if_false, if_true] at hr
        simp only [ANode.containsOrig, Bool.not_false, if_true, Bool.false_or]
        exact filterBySearchNamesListA_noOrig s l hr
      · exact Option.noConfusion h

theorem filterBySearchNamesListA_noOrig (s : List String) (l : List Node) :
    searchReattachesList s l = false →
      containsOrigList (filterBySearchNamesListA s l) = false := by
  intro hr
  cases l with
  | nil => simp [filterBySearchNamesListA, containsOrigList]
  | cons c rest =>
    simp only [searchReattachesList, Bool.or_eq_false_iff] at hr
    cases hfc : filterBySearchNamesA s c with
    | none =>
      simp [filterBySearchNamesListA, hfc,
        filterBySearchNamesListA_noOrig s rest hr.2]
    | some m =>
      simp [filterBySearchNamesListA, hfc, containsOrigList,
        (filterBySearchNamesA_noOrig s c m hfc).2 hr.1,
        filterBySearchNamesListA_noOrig s rest hr.2]

end

/-- C4 counterexample: filtering `Cat(Leaf)` by the matched set `{Cat}`
takes the reattach branch, so the pruned copy shares the original `Leaf`
object; running the search annotator over it then writes the
`isSearchMatch` flag onto a node object of the original source tree. -/
theorem c4_annotator_writes_original_counterexample :
    (filterBySearchNamesA ["Cat"] catNode).map
        (fun a => (markSearchHighlightsByNameA ["Cat"] a).2) = some true ∧
    (filterBySearchNamesA ["Cat"] catNode).map ANode.containsOrig = some true := by
  exact ⟨rfl, rfl⟩

/-- C4 amended: the facet filters build entirely fresh trees (shown for the
type filter, whose construction the other facet filters share), and the
search filter's emitted root is always fresh; its output contains original
source-tree objects — which the in-place annotator then writes flags onto —
exactly in the runs that take the reattach branch. -/
theorem c4_fresh_copy_amended :
    (∀ (t : String) (n : Node) (a : ANode), filterByTypeA t n = some a →
        a.containsOrig = false) ∧
    (∀ (s : List String) (n : Node) (a : ANode), filterBySearchNamesA s n = some a →
        a.orig = false) ∧
    (∀ (s : List String) (n : Node) (a : ANode), filterBySearchNamesA s n = some a →
        searchReattaches s n = false → a.containsOrig = false) :=
  ⟨fun t n a h => filterByTypeA_noOrig t n a h,
   fun s n a h => (filterBySearchNamesA_noOrig s n a h).1,
   fun s n a h hr => (filterBySearchNamesA_noOrig s n a h).2 hr⟩

theorem c4_fresh_copy_amended_witness :
    (∃ a, filterBySearchNamesA ["Leaf"] catNode = some a ∧ a.containsOrig = false) ∧
    (∃ a, filterByTypeA "article" solarLeaf = some a ∧ a.containsOrig = false) := by
  refine ⟨⟨.mk false "Cat" none none none none none
      (some [.mk false "Leaf" none none none none none none {}]) {}, rfl, ?_⟩,
    ⟨.mk false "Solar" (some "article") none none none none none {}, rfl, ?_⟩⟩
  · exact c4_fresh_copy_amended.2.2 ["Leaf"] catNode _ rfl rfl
  · exact c4_fresh_copy_amended.1 "article" solarLeaf _ rfl

/-! ## C8 — error containment in the evaluator -/

theorem containsOp_of_andnot (part : String)
    (hb : (hasKw andKw part || hasKw notKw part) = true) :
    containsBooleanOperators part = true := by
  unfold containsBooleanOperators
  cases ha : hasKw andKw part with
  | true => simp
  | false =>
    rw [ha] at hb
    simp only [Bool.false_or] at hb
    simp [hb]

theorem containsOp_of_andor (part : String)
    (hb : (hasKwAux andKw false part.data || hasKwAux orKw false part.data) = true) :
    containsBooleanOperators part = true := by
  unfold containsBooleanOperators hasKw
  cases ha : hasKwAux andKw false part.data with
  | true => simp
  | false =>
    rw [ha] at hb
    simp only [Bool.false_or] at hb
    simp [hb]

/-- No Text-Index exception ever escapes the evaluator: the single-term
boundary catches them, the NOT-at-start branch's unguarded empty-term query
is covered by the index contract, and the unguarded fallback of
`executeBooleanSearch` is unreachable whenever the dispatcher saw a boolean
operator in the query. -/
theorem evaluator_no_index_error (idx : TextIndex)
    (hidx : ∀ e : Unit, idx "" optsSimple ≠ .error e) :
    ∀ fuel : Nat,
      (∀ q : String, containsBooleanOperators q = true →
        executeBooleanSearch idx fuel q ≠ .error .indexError) ∧
      (∀ q : String, handleOrSearch idx fuel q ≠ .error .indexError) ∧
      (∀ parts : List String, orPartsResults idx fuel parts ≠ .error .indexError) ∧
      (∀ q : String, handleNotSearch idx fuel q ≠ .error .indexError) := by
  intro fuel
  induction fuel with
  | zero =>
    refine ⟨?_, ?_, ?_, ?_⟩
    · intro q _ h
      rw [show executeBooleanSearch idx 0 q = .error .stackOverflow from rfl] at h
      injection h with h2
      nomatch h2
    · intro q h
      rw [show handleOrSearch idx 0 q = .error .stackOverflow from rfl] at h
      injection h with h2
      nomatch h2
    · intro parts h
      cases parts with
      | nil =>
        rw [show orPartsResults idx 0 [] = .ok [] from rfl] at h
        nomatch h
      | cons p rest =>
        rw [show orPartsResults idx 0 (p :: rest) = .error .stackOverflow from rfl] at h
        injection h with h2
        nomatch h2
    · intro q h
      rw [show handleNotSearch idx 0 q = .error .stackOverflow from rfl] at h
      injection h with h2
      nomatch h2
  | succ f ih =>
    obtain ⟨ihE, ihO, ihP, ihN⟩ := ih
    refine ⟨?_, ?_, ?_, ?_⟩
    · intro q hq h
      simp only [executeBooleanSearch] at h
      cases ho : hasKw orKw q with
      | true =>
        rw [ho] at h
        simp only [if_true] at h
        exact ihO q h
      | false =>
        rw [ho] at h
        simp only [Bool.false_eq_true, if_false] at h
        cases ha : hasKw andKw q with
        | true =>
          rw [ha] at h
          simp only [if_true] at h
          nomatch h
        | false =>
          rw [ha] at h
          simp only [Bool.false_eq_true, if_false] at h
          cases hn : hasKw notKw q with
          | true =>
            rw [hn] at h
            simp only [if_true] at h
            exact ihN q h
          | false =>
            unfold containsBooleanOperators at hq
            rw [ho, ha, hn] at hq
            nomatch hq
    · intro q h
      simp only [handleOrSearch] at h
      cases hx : orPartsResults idx f
          ((jsSplitList orKw q.data).map (fun p => jsTrimS (String.mk p))) with
      | error e =>
        rw [hx] at h
        simp only [] at h
        injection h with h2
        rw [h2] at hx
        exact ihP _ hx
      | ok ls =>
        rw [hx] at h
        simp only [] at h
        nomatch h
    · intro parts h
      cases parts with
      | nil =>
        rw [show orPartsResults idx (f + 1) [] = .ok [] from rfl] at h
        nomatch h
      | cons part rest =>
        simp only [orPartsResults] at h
        cases hb : (hasKw andKw part || hasKw notKw part) with
        | true =>
          rw [hb] at h
          simp only [if_true] at h
          cases hx : executeBooleanSearch idx f part with
          | error e =>
            rw [hx] at h
            simp only [] at h
            injection h with h2
            rw [h2] at hx
            exact ihE part (containsOp_of_andnot part hb) hx
          | ok l =>
            rw [hx] at h
            simp only [] at h
            cases hy : orPartsResults idx f rest with
            | error e =>
              rw [hy] at h
              simp only [] at h
              injection h with h2
              rw [h2] at hy
              exact ihP rest hy
            | ok ls =>
              rw [hy] at h
              simp only [] at h
              nomatch h
        | false =>
          rw [hb] at h
          simp only [Bool.false_eq_true, if_false] at h
          cases hce : (jsTrimS part).isEmpty with
          | true =>
            rw [hce] at h
            simp only [if_true] at h
            cases hy : orPartsResults idx f rest with
            | error e =>
              rw [hy] at h
              simp only [] at h
              injection h with h2
              rw [h2] at hy
              exact ihP rest hy
            | ok ls =>
              rw [hy] at h
              simp only [] at h
              nomatch h
          | false =>
            rw [hce] at h
            simp only [Bool.false_eq_true, if_false] at h
            cases hy : orPartsResults idx f rest with
            | error e =>
              rw [hy] at h
              simp only [] at h
              injection h with h2
              rw [h2] at hy
              exact ihP rest hy
            | ok ls =>
              rw [hy] at h
              simp only [] at h
              nomatch h
    · intro q h
      simp only [handleNotSearch] at h
      cases hs : notSplit q.data with
      | none =>
        rw [hs] at h
        simp only [] at h
        cases hn : notAtStart q.data with
        | some exRaw =>
          rw [hn] at h
          simp only [] at h
          cases hce : (cleanSearchTerm (String.mk exRaw)).isEmpty with
          | true =>
            rw [hce] at h
            simp only [if_true] at h
            nomatch h
          | false =>
            rw [hce] at h
            simp only [Bool.false_eq_true, if_false] at h
            cases hix : idx "" optsSimple with
            | error e => exact absurd hix (hidx e)
            | ok allResults =>
              rw [hix] at h
              simp only [] at h
              nomatch h
        | none =>
          rw [hn] at h
          simp only [] at h
          nomatch h
      | some p =>
        obtain ⟨includePart, excludePart⟩ := p
        rw [hs] at h
        simp only [] at h
        cases hti : (jsTrimL includePart).isEmpty with
        | true =>
          rw [hti] at h
          simp only [if_true] at h
          nomatch h
        | false =>
          rw [hti] at h
          simp only [Bool.false_eq_true, if_false] at h
          cases hb : (hasKwAux andKw false includePart || hasKwAux orKw false includePart) with
          | true =>
            rw [hb] at h
            simp only [if_true] at h
            cases hx : executeBooleanSearch idx f (String.mk includePart) with
            | error e =>
              rw [hx] at h
              simp only [] at h
              injection h with h2
              rw [h2] at hx
              exact ihE (String.mk includePart)
                (containsOp_of_andor (String.mk includePart) hb) hx
            | ok l =>
              rw [hx] at h
              simp only [] at h
              nomatch h
          | false =>
            rw [hb] at h
            simp only [Bool.false_eq_true, if_false] at h
            nomatch h

/-- One evaluator dispatch step on the looping query: the OR word-test
succeeds, so the query goes to `handleOrSearch`. -/
theorem execLoop_step1 (k : Nat) :
    executeBooleanSearch idxEmpty (k + 1) "x-OR-y AND z" =
      handleOrSearch idxEmpty k "x-OR-y AND z" := by
  simp only [executeBooleanSearch]
  rw [show hasKw orKw "x-OR-y AND z" = true from rfl]
  simp only [if_true]

/-- The whitespace OR-split finds no separator, so the single part is the
whole query again. -/
theorem execLoop_step2 (k : Nat) :
    handleOrSearch idxEmpty (k + 1) "x-OR-y AND z" =
      (match orPartsResults idxEmpty k ["x-OR-y AND z"] with
        | .error e => .error e
        | .ok ls => .ok (sortByScoreDesc (mergeOrResults ls.flatten))) := by
  simp only [handleOrSearch]
  rw [show (jsSplitList orKw ("x-OR-y AND z" : String).data).map
      (fun p => jsTrimS (String.mk p)) = ["x-OR-y AND z"] from rfl]

/-- The part contains `AND`, so it is fed back into the evaluator whole. -/
theorem execLoop_step3 (k : Nat) :
    orPartsResults idxEmpty (k + 1) ["x-OR-y AND z"] =
      (match executeBooleanSearch idxEmpty k "x-OR-y AND z" with
        | .error e => .error e
        | .ok l =>
          match orPartsResults idxEmpty k ([] : List String) with
          | .error e => .error e
          | .ok ls => .ok (l :: ls)) := by
  simp only [orPartsResults]
  rw [show (hasKw andKw ("x-OR-y AND z" : String) ||
      hasKw notKw ("x-OR-y AND z" : String)) = true from rfl]
  simp only [if_true]

/-- The query `"x-OR-y AND z"` recurses through the evaluator without ever
shrinking: whatever the stack bound, evaluation aborts with an overflow. -/
theorem execLoop_diverges (f : Nat) :
    executeBooleanSearch idxEmpty f "x-OR-y AND z" = .error .stackOverflow := by
  induction f using Nat.strong_induction_on with
  | _ f ih =>
    match f with
    | 0 => rfl
    | 1 => rfl
    | 2 => rfl
    | (g + 3) =>
      show executeBooleanSearch idxEmpty (g + 2 + 1) "x-OR-y AND z" = _
      rw [execLoop_step1]
      show handleOrSearch idxEmpty (g + 1 + 1) "x-OR-y AND z" = _
      rw [execLoop_step2, execLoop_step3, ih g (by omega)]

/-- C8 counterexample: for the query `"x-OR-y AND z"` (whose OR word-test
succeeds while the whitespace OR-split fails and an AND token is present),
the evaluator calls itself on the unchanged query and recurses without
bound, so an exception (the stack overflow) escapes to the caller even
though the Text Index never throws — at fuel 50 here, and
`execLoop_diverges` shows the same at every stack bound. -/
theorem c8_unbounded_recursion_counterexample :
    evaluateSearchQuery 50 idxEmpty "x-OR-y AND z" = .error .stackOverflow := by
  unfold evaluateSearchQuery
  rw [show containsBooleanOperators "x-OR-y AND z" = true from rfl]
  simp only [if_true]
  exact execLoop_diverges 50

/-- C8 amended: on every query where the evaluator's recursion terminates,
a Text-Index exception raised in any sub-expression is caught and converted
to an empty result list (given the contract that the index does not throw
on the empty term, which the NOT-at-start branch queries outside any
try/catch): the only error the evaluator can ever surface is stack
exhaustion from its non-terminating dispatch cycle. -/
theorem c8_no_index_error_escapes_amended (fuel : Nat) (idx : TextIndex) (q : String)
    (hidx : ∀ e : Unit, idx "" optsSimple ≠ .error e) :
    evaluateSearchQuery fuel idx q ≠ .error .indexError := by
  unfold evaluateSearchQuery
  cases hc : containsBooleanOperators q with
  | true =>
    simp only [if_true]
    exact (evaluator_no_index_error idx hidx fuel).1 q hc
  | false =>
    simp only [Bool.false_eq_true, if_false]
    intro h
    nomatch h

theorem c8_no_index_error_escapes_amended_witness :
    evaluateSearchQuery 5 (fun t _ => if t = "" then .ok [] else .error ())
      "solar AND wind" ≠ .error .indexError :=
  c8_no_index_error_escapes_amended 5 (fun t _ => if t = "" then .ok [] else .error ())
    "solar AND wind" (by intro e h; nomatch h)

/-! ## C7 — `A AND B` results are contained in `A OR B` results

The development quantifies over arbitrary operator-free terms, so the JS
splitting and word-boundary scans are characterised on appended strings:
the lemmas below show `\bkw\b` tests and `\s+kw\s+` splits distribute over
the single-space junctions of `A ++ " kw " ++ B`. -/

/-- Whitespace characters are not word characters. -/
theorem not_word_of_ws (c : Char) (h : isWsChar c = true) : isWordChar c = false := by
  unfold isWsChar at h
  simp [Char.isWhitespace] at h
  rcases h with ((h1 | h1) | h1) | h1 <;> (subst h1; decide)

theorem stripKw_append_some (kw : List Char) :
    ∀ u v r, stripKw kw u = some r → stripKw kw (u ++ v) = some (r ++ v) := by
  induction kw with
  | nil =>
    intro u v r h
    injection h with h2
    subst h2
    rfl
  | cons k ks ih =>
    intro u v r h
    cases u with
    | nil => nomatch h
    | cons c u' =>
      simp only [stripKw] at h
      cases hle : lowerEq c k with
      | false => rw [hle] at h; nomatch h
      | true =>
        rw [hle] at h
        simp only [if_true] at h
        simp only [List.cons_append, stripKw, hle, if_true]
        exact ih u' v r h

theorem stripKw_append_none_space (kw : List Char)
    (hlw : ∀ k ∈ kw, lowerEq ' ' k = false) :
    ∀ u v, stripKw kw u = none → stripKw kw (u ++ ' ' :: v) = none := by
  induction kw with
  | nil =>
    intro u v h
    nomatch h
  | cons k ks ih =>
    intro u v h
    cases u with
    | nil =>
      simp only [List.nil_append, stripKw, hlw k (by simp)]
      simp
    | cons c u' =>
      simp only [stripKw] at h
      cases hle : lowerEq c k with
      | false =>
        simp only [List.cons_append, stripKw, hle]
        simp
      | true =>
        rw [hle] at h
        simp only [if_true] at h
        simp only [List.cons_append, stripKw, hle, if_true]
        exact ih (fun x hx => hlw x (by simp [hx])) u' v h

theorem stripKw_self (kw : List Char) : ∀ v, stripKw kw (kw ++ v) = some v := by
  induction kw with
  | nil => intro v; rfl
  | cons k ks ih =>
    intro v
    simp only [List.cons_append, stripKw, lowerEq, beq_self_eq_true, if_true]
    exact ih v

theorem checkKwHere_append_space (kw : List Char)
    (hlw : ∀ k ∈ kw, lowerEq ' ' k = false) (u v : List Char) :
    checkKwHere kw (u ++ ' ' :: v) = checkKwHere kw u := by
  cases hsk : stripKw kw u with
  | some r =>
    have h2 := stripKw_append_some kw u (' ' :: v) r hsk
    unfold checkKwHere
    rw [h2, hsk]
    cases r with
    | nil => simp [bAfter, isWordChar]
    | cons x r' => simp [bAfter]
  | none =>
    have h2 := stripKw_append_none_space kw hlw u v hsk
    unfold checkKwHere
    rw [h2, hsk]

/-- A `\bkw\b` scan over a single-space junction splits into independent
scans of the two sides: no match can straddle a space. -/
theorem hasKwAux_append_space (kw : List Char) (hne : kw ≠ [])
    (hlw : ∀ k ∈ kw, lowerEq ' ' k = false) :
    ∀ (u : List Char) (p : Bool) (v : List Char),
      hasKwAux kw p (u ++ ' ' :: v) = (hasKwAux kw p u || hasKwAux kw false v) := by
  intro u
  induction u with
  | nil =>
    intro p v
    have hch : checkKwHere kw (' ' :: v) = false := by
      cases kw with
      | nil => exact absurd rfl hne
      | cons k ks =>
        unfold checkKwHere stripKw
        rw [hlw k (by simp)]
        simp
    show (!p && checkKwHere kw (' ' :: v) || hasKwAux kw (isWordChar ' ') v) =
        (hasKwAux kw p [] || hasKwAux kw false v)
    rw [hch]
    simp [hasKwAux, show isWordChar ' ' = false from rfl]
  | cons c u' ih =>
    intro p v
    have e2 : checkKwHere kw (c :: (u' ++ ' ' :: v)) = checkKwHere kw (c :: u') :=
      checkKwHere_append_space kw hlw (c :: u') v
    show (!p && checkKwHere kw (c :: (u' ++ ' ' :: v)) ||
        hasKwAux kw (isWordChar c) (u' ++ ' ' :: v)) =
      ((!p && checkKwHere kw (c :: u') || hasKwAux kw (isWordChar c) u') ||
        hasKwAux kw false v)
    rw [e2, ih (isWordChar c) v, Bool.or_assoc]

/-- The keyword itself, followed by a space, is always found by the scan. -/
theorem hasKwAux_self_junction (kw : List Char) (hne : kw ≠ []) (v : List Char) :
    hasKwAux kw false (kw ++ ' ' :: v) = true := by
  cases kw with
  | nil => exact absurd rfl hne
  | cons k ks =>
    have hch : checkKwHere (k :: ks) (k :: (ks ++ ' ' :: v)) = true := by
      unfold checkKwHere
      rw [show stripKw (k :: ks) (k :: (ks ++ ' ' :: v)) = some (' ' :: v) from
        stripKw_self (k :: ks) (' ' :: v)]
      simp [bAfter, isWordChar]
    show (!false && checkKwHere (k :: ks) (k :: (ks ++ ' ' :: v)) ||
        hasKwAux (k :: ks) (isWordChar k) (ks ++ ' ' :: v)) = true
    rw [hch]
    simp

/-- If a stretch of text has no `\bkw\b` match, the separator matcher fails
on it. -/
theorem matchSepAfterWs_none (kw : List Char) :
    ∀ S : List Char, hasKwAux kw false S = false → matchSepAfterWs kw S = none := by
  intro S
  induction S with
  | nil => intro _; rfl
  | cons d S' ih =>
    intro h
    have h' : (!false && checkKwHere kw (d :: S') || hasKwAux kw (isWordChar d) S') = false := h
    simp only [Bool.not_false, Bool.true_and, Bool.or_eq_false_iff] at h'
    obtain ⟨h1, h2⟩ := h'
    unfold matchSepAfterWs
    cases hw : isWsChar d with
    | true =>
      simp only [if_true]
      apply ih
      rwa [not_word_of_ws d hw] at h2
    | false =>
      simp only [Bool.false_eq_true, if_false]
      cases hsk : stripKw kw (d :: S') with
      | none => rfl
      | some r =>
        cases r with
        | nil =>
          exfalso
          have hck : checkKwHere kw (d :: S') = true := by
            unfold checkKwHere
            rw [hsk]
            rfl
          rw [hck] at h1
          nomatch h1
        | cons x r' =>
          cases hx : isWsChar x with
          | false => simp [matchTrailWs, hx]
          | true =>
            exfalso
            have hck : checkKwHere kw (d :: S') = true := by
              unfold checkKwHere
              rw [hsk]
              simp [bAfter, not_word_of_ws x hx]
            rw [hck] at h1
            nomatch h1

/-- The separator matcher also fails on a no-match stretch followed by the
junction ` kw B`: the whitespace-run recursion stays inside the stretch
(whose last character is not whitespace) and a keyword match cannot straddle
the junction space. -/
theorem matchSepAfterWs_junction_none (kw : List Char)
    (hlw : ∀ k ∈ kw, lowerEq ' ' k = false) (B : List Char) :
    ∀ S : List Char, S ≠ [] → hasKwAux kw false S = false →
      (∀ c, S.getLast? = some c → isWsChar c = false) →
      matchSepAfterWs kw (S ++ ' ' :: (kw ++ ' ' :: B)) = none := by
  intro S
  induction S with
  | nil => intro h; exact absurd rfl h
  | cons d S' ih =>
    intro _ h hlast
    have h' : (!false && checkKwHere kw (d :: S') || hasKwAux kw (isWordChar d) S') = false := h
    simp only [Bool.not_false, Bool.true_and, Bool.or_eq_false_iff] at h'
    obtain ⟨h1, h2⟩ := h'
    show matchSepAfterWs kw (d :: (S' ++ ' ' :: (kw ++ ' ' :: B))) = none
    unfold matchSepAfterWs
    cases hw : isWsChar d with
    | true =>
      simp only [if_true]
      cases S' with
      | nil =>
        exfalso
        have hl := hlast d rfl
        rw [hw] at hl
        nomatch hl
      | cons e S'' =>
        apply ih
        · simp
        · rwa [not_word_of_ws d hw] at h2
        · intro c hc
          exact hlast c (by rw [List.getLast?_cons_cons]; exact hc)
    | false =>
      simp only [Bool.false_eq_true, if_false]
      cases hsk : stripKw kw (d :: S') with
      | none =>
        have hfull : stripKw kw ((d :: S') ++ ' ' :: (kw ++ ' ' :: B)) = none :=
          stripKw_append_none_space kw hlw (d :: S') (kw ++ ' ' :: B) hsk
        simp only [List.cons_append] at hfull
        rw [hfull]
      | some r =>
        have hfull : stripKw kw ((d :: S') ++ ' ' :: (kw ++ ' ' :: B)) =
            some (r ++ ' ' :: (kw ++ ' ' :: B)) :=
          stripKw_append_some kw (d :: S') (' ' :: (kw ++ ' ' :: B)) r hsk
        simp only [List.cons_append] at hfull
        rw [hfull]
        cases r with
        | nil =>
          exfalso
          have hck : checkKwHere kw (d :: S') = true := by
            unfold checkKwHere
            rw [hsk]
            rfl
          rw [hck] at h1
          nomatch h1
        | cons x r' =>
          cases hx : isWsChar x with
          | false => simp [matchTrailWs, hx]
          | true =>
            exfalso
            have hck : checkKwHere kw (d :: S') = true := by
              unfold checkKwHere
              rw [hsk]
              simp [bAfter, not_word_of_ws x hx]
            rw [hck] at h1
            nomatch h1

/-- A stretch whose `\bkw\b` scan fails (under any left context) contains no
`\s+kw\s+` separator at all. -/
theorem splitFirst_none_of_noKw (kw : List Char) :
    ∀ (S : List Char) (p : Bool), hasKwAux kw p S = false → splitFirst kw S = none := by
  intro S
  induction S with
  | nil => intro p _; rfl
  | cons c cs ih =>
    intro p h
    have h' : (!p && checkKwHere kw (c :: cs) || hasKwAux kw (isWordChar c) cs) = false := h
    simp only [Bool.or_eq_false_iff] at h'
    obtain ⟨h1, h2⟩ := h'
    have hms : matchSep kw (c :: cs) = none := by
      unfold matchSep
      simp only []
      cases hc : isWsChar c with
      | false => simp [hc]
      | true =>
        simp only [if_true]
        apply matchSepAfterWs_none
        rwa [not_word_of_ws c hc] at h2
    unfold splitFirst
    rw [hms, ih (isWordChar c) h2]

/-- The splitter leaves a keyword-free stretch in one piece. -/
theorem jsSplitGo_noKw (kw : List Char) (f : Nat) (S : List Char) (p : Bool)
    (h : hasKwAux kw p S = false) : jsSplitGo kw f S = [S] := by
  cases f with
  | zero => rfl
  | succ g =>
    unfold jsSplitGo
    rw [splitFirst_none_of_noKw kw S p h]

/-- At the junction itself, the separator match consumes ` kw ` and the
whitespace run at the head of the remainder. -/
theorem splitFirst_junction_base (kw : List Char) (hne : kw ≠ [])
    (hkww : ∀ k ∈ kw, isWsChar k = false) (B : List Char) :
    splitFirst kw (' ' :: (kw ++ ' ' :: B)) = some ([], B.dropWhile isWsChar) := by
  cases kw with
  | nil => exact absurd rfl hne
  | cons k ks =>
    have hkws : isWsChar k = false := hkww k (by simp)
    have hself : stripKw (k :: ks) ((k :: ks) ++ ' ' :: B) = some (' ' :: B) :=
      stripKw_self (k :: ks) (' ' :: B)
    simp only [List.cons_append] at hself ⊢
    have h1 : matchSepAfterWs (k :: ks) (k :: (ks ++ ' ' :: B)) =
        some (B.dropWhile isWsChar) := by
      unfold matchSepAfterWs
      rw [hkws]
      simp only [Bool.false_eq_true, if_false]
      rw [hself]
      simp [matchTrailWs, show isWsChar ' ' = true from by decide]
    have hms : matchSep (k :: ks) (' ' :: (k :: (ks ++ ' ' :: B))) =
        some (B.dropWhile isWsChar) := by
      unfold matchSep
      simp only []
      simp only [show isWsChar ' ' = true from by decide, if_true]
      exact h1
    unfold splitFirst
    rw [hms]

/-- The leftmost `\s+kw\s+` separator of `A ⌴kw⌴B` is exactly the junction,
when the stretch `A` has no `\bkw\b` match and no trailing whitespace. -/
theorem splitFirst_junction (kw : List Char) (hne : kw ≠ [])
    (hlw : ∀ k ∈ kw, lowerEq ' ' k = false)
    (hkww : ∀ k ∈ kw, isWsChar k = false) (B : List Char) :
    ∀ (A : List Char) (p : Bool), hasKwAux kw p A = false →
      (∀ c, A.getLast? = some c → isWsChar c = false) →
      A ≠ [] →
      splitFirst kw (A ++ ' ' :: (kw ++ ' ' :: B)) = some (A, B.dropWhile isWsChar) := by
  intro A
  induction A with
  | nil => intro p _ _ hA; exact absurd rfl hA
  | cons c A' ih =>
    intro p h hlast _
    have h' : (!p && checkKwHere kw (c :: A') || hasKwAux kw (isWordChar c) A') = false := h
    simp only [Bool.or_eq_false_iff] at h'
    obtain ⟨h1, h2⟩ := h'
    show splitFirst kw (c :: (A' ++ ' ' :: (kw ++ ' ' :: B))) =
      some (c :: A', B.dropWhile isWsChar)
    unfold splitFirst
    cases hc : isWsChar c with
    | false =>
      have hms : matchSep kw (c :: (A' ++ ' ' :: (kw ++ ' ' :: B))) = none := by
        unfold matchSep
        simp only []
        rw [hc]
        simp
      rw [hms]
      cases A' with
      | nil =>
        simp only [List.nil_append]
        rw [splitFirst_junction_base kw hne hkww B]
      | cons e A'' =>
        have hlast' : ∀ d, (e :: A'').getLast? = some d → isWsChar d = false := by
          intro d hd
          exact hlast d (by rw [List.getLast?_cons_cons]; exact hd)
        rw [ih (isWordChar c) h2 hlast' (by simp)]
    | true =>
      cases A' with
      | nil =>
        exfalso
        have hl := hlast c rfl
        rw [hc] at hl
        nomatch hl
      | cons e A'' =>
        have hlast' : ∀ d, (e :: A'').getLast? = some d → isWsChar d = false := by
          intro d hd
          exact hlast d (by rw [List.getLast?_cons_cons]; exact hd)
        have hnokw : hasKwAux kw false (e :: A'') = false := by
          rwa [not_word_of_ws c hc] at h2
        have hms : matchSep kw (c :: ((e :: A'') ++ ' ' :: (kw ++ ' ' :: B))) = none := by
          unfold matchSep
          simp only []
          rw [hc]
          simp only [if_true]
          exact matchSepAfterWs_junction_none kw hlw B (e :: A'') (by simp) hnokw hlast'
        rw [hms]
        rw [ih (isWordChar c) h2 hlast' (by simp)]

/-- `split(/\s+kw\s+/i)` on `A ⌴kw⌴B` yields exactly the two parts when the
parts are keyword-free and have no edge whitespace on the junction side. -/
theorem jsSplitList_junction (kw : List Char) (hne : kw ≠ [])
    (hlw : ∀ k ∈ kw, lowerEq ' ' k = false)
    (hkww : ∀ k ∈ kw, isWsChar k = false)
    (A B : List Char)
    (hA : hasKwAux kw false A = false)
    (hAne : A ≠ [])
    (hAlast : ∀ c, A.getLast? = some c → isWsChar c = false)
    (hB : hasKwAux kw false B = false)
    (hBhead : ∀ c, B.head? = some c → isWsChar c = false) :
    jsSplitList kw (A ++ ' ' :: (kw ++ ' ' :: B)) = [A, B] := by
  unfold jsSplitList
  unfold jsSplitGo
  rw [splitFirst_junction kw hne hlw hkww B A false hA hAlast hAne]
  simp only []
  rw [dropWhile_id_of_head isWsChar B hBhead]
  rw [jsSplitGo_noKw kw (A ++ ' ' :: (kw ++ ' ' :: B)).length B false hB]

/-- The defaulted last element agrees with `getLast?` on nonempty lists. -/
theorem getLastD_of_last (l : List Char) (a d : Char) (h : l.getLast? = some d) :
    l.getLastD a = d := by
  rw [List.getLastD_eq_getLast?, h]
  rfl

/-- A string with nonempty character data is not `isEmpty`. -/
theorem isEmpty_false_of_ne (s : String) (h : s.data ≠ []) : s.isEmpty = false := by
  cases hd : s.data with
  | nil => exact absurd hd h
  | cons c cs =>
    have hs : s = String.mk (c :: cs) := by
      cases s with
      | mk d =>
        rw [show (String.mk d).data = d from rfl] at hd
        rw [hd]
    rw [hs]
    exact strMk_cons_not_isEmpty c cs

/-- An operator-free search term of the boolean grammar: nonempty, no edge
whitespace, and no `AND`/`OR`/`NOT` word. -/
def isTerm (s : String) : Bool :=
  match s.data with
  | [] => false
  | c :: cs =>
    !isWsChar c && !isWsChar ((c :: cs).getLastD ' ') && !containsBooleanOperators s

/-- The individual facts packed into `isTerm`. -/
theorem isTerm_facts (s : String) (h : isTerm s = true) :
    s.data ≠ [] ∧ (∀ c, s.data.head? = some c → isWsChar c = false) ∧
      (∀ c, s.data.getLast? = some c → isWsChar c = false) ∧
      hasKwAux andKw false s.data = false ∧ hasKwAux orKw false s.data = false ∧
      hasKwAux notKw false s.data = false := by
  unfold isTerm at h
  cases hd : s.data with
  | nil => rw [hd] at h; nomatch h
  | cons c cs =>
    rw [hd] at h
    simp only [] at h
    simp only [Bool.and_eq_true, Bool.not_eq_true'] at h
    obtain ⟨⟨hcw, hlw⟩, hops⟩ := h
    have hops' : (hasKw andKw s || hasKw orKw s || hasKw notKw s) = false := hops
    simp only [Bool.or_eq_false_iff] at hops'
    obtain ⟨⟨hand, hor⟩, hnot⟩ := hops'
    refine ⟨List.cons_ne_nil c cs, ?_, ?_, ?_, ?_, ?_⟩
    · intro e he
      have h2 : some c = some e := he
      injection h2 with h3
      rw [← h3]
      exact hcw
    · intro e he
      rw [getLastD_of_last (c :: cs) ' ' e he] at hlw
      exact hlw
    · rw [← hd]
      exact hand
    · rw [← hd]
      exact hor
    · rw [← hd]
      exact hnot

/-- The per-part loop of `handleOrSearch` on no parts. -/
theorem orPartsResults_nil (idx : TextIndex) (fuel : Nat) :
    orPartsResults idx fuel [] = .ok [] := by
  cases fuel <;> rfl

/-- The per-part loop of `handleOrSearch` on one plain term. -/
theorem orParts_single (idx : TextIndex) (B : String) (fuel : Nat)
    (hand : hasKw andKw B = false) (hnot : hasKw notKw B = false)
    (htrim : jsTrimS B = B) (hne : B.isEmpty = false) :
    orPartsResults idx (fuel + 1) [B] = .ok [searchSingleTerm idx B] := by
  unfold orPartsResults
  rw [hand, hnot]
  simp only [Bool.or_self, Bool.false_eq_true, if_false]
  rw [htrim, hne]
  simp only [Bool.false_eq_true, if_false]
  rw [orPartsResults_nil idx fuel]

/-- The per-part loop of `handleOrSearch` on two plain terms. -/
theorem orParts_pair (idx : TextIndex) (A B : String) (fuel : Nat)
    (hAand : hasKw andKw A = false) (hAnot : hasKw notKw A = false)
    (htrimA : jsTrimS A = A) (hAne : A.isEmpty = false)
    (hBand : hasKw andKw B = false) (hBnot : hasKw notKw B = false)
    (htrimB : jsTrimS B = B) (hBne : B.isEmpty = false) :
    orPartsResults idx (fuel + 2) [A, B] =
      .ok [searchSingleTerm idx A, searchSingleTerm idx B] := by
  show orPartsResults idx ((fuel + 1) + 1) (A :: [B]) = _
  unfold orPartsResults
  rw [hAand, hAnot]
  simp only [Bool.or_self, Bool.false_eq_true, if_false]
  rw [htrimA, hAne]
  simp only [Bool.false_eq_true, if_false]
  rw [orParts_single idx B fuel hBand hBnot htrimB hBne]

/-- The intersection loop of `handleAndSearch` on one nonempty later part. -/
theorem andLoop_single (idx : TextIndex) (res : List SearchResult) (part : String)
    (h : part.isEmpty = false) :
    andLoop idx res [part] =
      res.filter (fun r => ((searchSingleTerm idx part).map (fun x => x.id)).contains r.id) := by
  unfold andLoop
  rw [h]
  simp only [Bool.false_eq_true, if_false]
  rfl

/-- `handleAndSearch` on a two-term query is intersection-by-id then sort. -/
theorem handleAnd_junction (idx : TextIndex) (A B qand : String)
    (hqa : qand.data = A.data ++ ' ' :: (andKw ++ ' ' :: B.data))
    (hsplit : jsSplitList andKw (A.data ++ ' ' :: (andKw ++ ' ' :: B.data)) = [A.data, B.data])
    (htrimA : jsTrimS A = A) (htrimB : jsTrimS B = B) (hBe : B.isEmpty = false) :
    handleAndSearch idx qand = sortByScoreDesc ((searchSingleTerm idx A).filter
      (fun r => ((searchSingleTerm idx B).map (fun x => x.id)).contains r.id)) := by
  unfold handleAndSearch
  rw [hqa, hsplit]
  simp only [List.map_cons, List.map_nil]
  rw [show String.mk A.data = A from rfl, show String.mk B.data = B from rfl, htrimA, htrimB]
  show sortByScoreDesc (andLoop idx (searchSingleTerm idx A) [B]) = _
  rw [andLoop_single idx (searchSingleTerm idx A) B hBe]

/-- `handleOrSearch` on a two-term query is union-by-id then sort. -/
theorem handleOr_junction (idx : TextIndex) (A B qor : String) (fuel : Nat)
    (hqo : qor.data = A.data ++ ' ' :: (orKw ++ ' ' :: B.data))
    (hsplit : jsSplitList orKw (A.data ++ ' ' :: (orKw ++ ' ' :: B.data)) = [A.data, B.data])
    (htrimA : jsTrimS A = A) (htrimB : jsTrimS B = B)
    (hparts : orPartsResults idx (fuel + 2) [A, B] =
      .ok [searchSingleTerm idx A, searchSingleTerm idx B]) :
    handleOrSearch idx (fuel + 3) qor =
      .ok (sortByScoreDesc (mergeOrResults
        (searchSingleTerm idx A ++ searchSingleTerm idx B))) := by
  show handleOrSearch idx ((fuel + 2) + 1) qor = _
  unfold handleOrSearch
  rw [hqo, hsplit]
  simp only [List.map_cons, List.map_nil]
  rw [show String.mk A.data = A from rfl, show String.mk B.data = B from rfl, htrimA, htrimB]
  rw [hparts]
  simp only [List.flatten_cons, List.flatten_nil, List.append_nil]

/-- The evaluator on `A AND B` for operator-free terms: the id-intersection
of the two single-term result lists, sorted by descending score. -/
theorem execAND_eval (idx : TextIndex) (A B qand : String) (fuel : Nat)
    (hA : isTerm A = true) (hB : isTerm B = true)
    (hqa : qand.data = A.data ++ ' ' :: (andKw ++ ' ' :: B.data)) :
    executeBooleanSearch idx (fuel + 4) qand =
      .ok (sortByScoreDesc ((searchSingleTerm idx A).filter
        (fun r => ((searchSingleTerm idx B).map (fun x => x.id)).contains r.id))) := by
  obtain ⟨hAne, hAhead, hAlast, hAand, hAor, hAnot⟩ := isTerm_facts A hA
  obtain ⟨hBne, hBhead, hBlast, hBand, hBor, hBnot⟩ := isTerm_facts B hB
  have htrimA : jsTrimS A = A := by
    unfold jsTrimS
    rw [jsTrimL_id A.data hAhead hAlast]
  have htrimB : jsTrimS B = B := by
    unfold jsTrimS
    rw [jsTrimL_id B.data hBhead hBlast]
  have hBe : B.isEmpty = false := isEmpty_false_of_ne B hBne
  have hsplit : jsSplitList andKw (A.data ++ ' ' :: (andKw ++ ' ' :: B.data)) =
      [A.data, B.data] :=
    jsSplitList_junction andKw (by decide) (by decide) (by decide) A.data B.data
      hAand hAne hAlast hBand hBhead
  have hnoor : hasKw orKw qand = false := by
    unfold hasKw
    rw [hqa,
      hasKwAux_append_space orKw (by decide) (by decide) A.data false (andKw ++ ' ' :: B.data),
      hasKwAux_append_space orKw (by decide) (by decide) andKw false B.data,
      hAor, hBor, show hasKwAux orKw false andKw = false from by decide]
    rfl
  have hyand : hasKw andKw qand = true := by
    unfold hasKw
    rw [hqa,
      hasKwAux_append_space andKw (by decide) (by decide) A.data false (andKw ++ ' ' :: B.data),
      hasKwAux_self_junction andKw (by decide) B.data, hAand]
    rfl
  show executeBooleanSearch idx ((fuel + 3) + 1) qand = _
  unfold executeBooleanSearch
  rw [hnoor]
  simp only [Bool.false_eq_true, if_false]
  rw [hyand]
  simp only [if_true]
  rw [handleAnd_junction idx A B qand hqa hsplit htrimA htrimB hBe]

/-- The evaluator on `A OR B` for operator-free terms: the id-union of the
two single-term result lists (higher score winning), sorted descending. -/
theorem execOR_eval (idx : TextIndex) (A B qor : String) (fuel : Nat)
    (hA : isTerm A = true) (hB : isTerm B = true)
    (hqo : qor.data = A.data ++ ' ' :: (orKw ++ ' ' :: B.data)) :
    executeBooleanSearch idx (fuel + 4) qor =
      .ok (sortByScoreDesc (mergeOrResults
        (searchSingleTerm idx A ++ searchSingleTerm idx B))) := by
  obtain ⟨hAne, hAhead, hAlast, hAand, hAor, hAnot⟩ := isTerm_facts A hA
  obtain ⟨hBne, hBhead, hBlast, hBand, hBor, hBnot⟩ := isTerm_facts B hB
  have htrimA : jsTrimS A = A := by
    unfold jsTrimS
    rw [jsTrimL_id A.data hAhead hAlast]
  have htrimB : jsTrimS B = B := by
    unfold jsTrimS
    rw [jsTrimL_id B.data hBhead hBlast]
  have hAe : A.isEmpty = false := isEmpty_false_of_ne A hAne
  have hBe : B.isEmpty = false := isEmpty_false_of_ne B hBne
  have hsplit : jsSplitList orKw (A.data ++ ' ' :: (orKw ++ ' ' :: B.data)) =
      [A.data, B.data] :=
    jsSplitList_junction orKw (by decide) (by decide) (by decide) A.data B.data
      hAor hAne hAlast hBor hBhead
  have hparts : orPartsResults idx (fuel + 2) [A, B] =
      .ok [searchSingleTerm idx A, searchSingleTerm idx B] :=
    orParts_pair idx A B fuel hAand hAnot htrimA hAe hBand hBnot htrimB hBe
  have horq : hasKw orKw qor = true := by
    unfold hasKw
    rw [hqo,
      hasKwAux_append_space orKw (by decide) (by decide) A.data false (orKw ++ ' ' :: B.data),
      hasKwAux_self_junction orKw (by decide) B.data, hAor]
    rfl
  show executeBooleanSearch idx ((fuel + 3) + 1) qor = _
  unfold executeBooleanSearch
  rw [horq]
  simp only [if_true]
  exact handleOr_junction idx A B qor fuel hqo hsplit htrimA htrimB hparts

/-- Membership through the descending insertion. -/
theorem mem_insertDesc (r x : SearchResult) (l : List SearchResult) :
    x ∈ insertDesc r l ↔ x = r ∨ x ∈ l := by
  induction l with
  | nil => simp [insertDesc]
  | cons y ys ih =>
    unfold insertDesc
    by_cases hy : y.score < r.score
    · rw [if_pos hy]
      simp [List.mem_cons]
    · rw [if_neg hy]
      simp only [List.mem_cons, ih]
      tauto

/-- The score-descending sort keeps exactly the members of its input. -/
theorem mem_sortByScoreDesc (x : SearchResult) (l : List SearchResult) :
    x ∈ sortByScoreDesc l ↔ x ∈ l := by
  unfold sortByScoreDesc
  induction l with
  | nil => simp
  | cons y ys ih =>
    simp only [List.foldr_cons, mem_insertDesc, List.mem_cons, ih]

/-- The `Map` upsert keeps an id that was already present. -/
theorem upsert_keeps_id (acc : List SearchResult) (r x : SearchResult) (hx : x ∈ acc) :
    ∃ s ∈ upsertResult acc r, s.id = x.id := by
  unfold upsertResult
  by_cases ha : acc.any (fun y => y.id == r.id) = true
  · rw [if_pos ha]
    refine ⟨_, List.mem_map.mpr ⟨x, hx, rfl⟩, ?_⟩
    by_cases hc : (x.id == r.id && decide (x.score < r.score)) = true
    · rw [if_pos hc]
      have hxr : x.id = r.id := eq_of_beq (Bool.and_eq_true .. ▸ hc).1
      rw [hxr]
    · rw [if_neg hc]
  · rw [if_neg ha]
    exact ⟨x, List.mem_append_left _ hx, rfl⟩

/-- The `Map` upsert makes the inserted id present. -/
theorem upsert_new_id (acc : List SearchResult) (r : SearchResult) :
    ∃ s ∈ upsertResult acc r, s.id = r.id := by
  unfold upsertResult
  by_cases ha : acc.any (fun y => y.id == r.id) = true
  · rw [if_pos ha]
    obtain ⟨x, hx, hxid⟩ := List.any_eq_true.mp ha
    refine ⟨_, List.mem_map.mpr ⟨x, hx, rfl⟩, ?_⟩
    by_cases hc : (x.id == r.id && decide (x.score < r.score)) = true
    · rw [if_pos hc]
    · rw [if_neg hc]
      exact eq_of_beq hxid
  · rw [if_neg ha]
    exact ⟨r, List.mem_append_right _ (by simp), rfl⟩

/-- Folding further upserts preserves every id already in the accumulator. -/
theorem mergeFold_keeps (l : List SearchResult) :
    ∀ (acc : List SearchResult) (x : SearchResult), x ∈ acc →
      ∃ s ∈ List.foldl upsertResult acc l, s.id = x.id := by
  induction l with
  | nil => intro acc x hx; exact ⟨x, hx, rfl⟩
  | cons r l' ih =>
    intro acc x hx
    obtain ⟨s', hs', hid⟩ := upsert_keeps_id acc r x hx
    obtain ⟨s, hs, hid2⟩ := ih (upsertResult acc r) s' hs'
    refine ⟨s, ?_, by rw [hid2, hid]⟩
    rw [List.foldl_cons]
    exact hs

/-- Every id of the input list appears in the fold of upserts. -/
theorem mergeFold_mem (l : List SearchResult) :
    ∀ (acc : List SearchResult) (x : SearchResult), x ∈ l →
      ∃ s ∈ List.foldl upsertResult acc l, s.id = x.id := by
  induction l with
  | nil => intro acc x hx; nomatch hx
  | cons r l' ih =>
    intro acc x hx
    rw [List.mem_cons] at hx
    cases hx with
    | inl he =>
      subst he
      obtain ⟨s', hs', hid⟩ := upsert_new_id acc x
      obtain ⟨s, hs, hid2⟩ := mergeFold_keeps l' (upsertResult acc x) s' hs'
      refine ⟨s, ?_, by rw [hid2, hid]⟩
      rw [List.foldl_cons]
      exact hs
    | inr hm =>
      obtain ⟨s, hs, hid⟩ := ih (upsertResult acc r) x hm
      refine ⟨s, ?_, hid⟩
      rw [List.foldl_cons]
      exact hs

/-- The OR union keeps every document id of its input. -/
theorem mergeOr_mem_id (l : List SearchResult) (x : SearchResult) (hx : x ∈ l) :
    ∃ s ∈ mergeOrResults l, s.id = x.id := by
  unfold mergeOrResults
  exact mergeFold_mem l [] x hx

/-- C7: for any Text Index and any two operator-free terms `A` and `B` (no
`AND`/`OR`/`NOT` word, nonempty, no edge whitespace), every document id in
the evaluator's result for `A AND B` also appears in its result for
`A OR B`. -/
theorem c7_and_subset_or (idx : TextIndex) (A B qand qor : String) (fuel : Nat)
    (hA : isTerm A = true) (hB : isTerm B = true)
    (hqa : qand.data = A.data ++ ' ' :: (andKw ++ ' ' :: B.data))
    (hqo : qor.data = A.data ++ ' ' :: (orKw ++ ' ' :: B.data))
    (la lb : List SearchResult)
    (ha : executeBooleanSearch idx (fuel + 4) qand = .ok la)
    (hb : executeBooleanSearch idx (fuel + 4) qor = .ok lb) :
    ∀ r ∈ la, ∃ s ∈ lb, s.id = r.id := by
  intro r hr
  rw [execAND_eval idx A B qand fuel hA hB hqa] at ha
  rw [execOR_eval idx A B qor fuel hA hB hqo] at hb
  injection ha with ha'
  injection hb with hb'
  subst ha'
  subst hb'
  rw [mem_sortByScoreDesc] at hr
  rw [List.mem_filter] at hr
  obtain ⟨hrA, _⟩ := hr
  obtain ⟨s, hs, hid⟩ :=
    mergeOr_mem_id (searchSingleTerm idx A ++ searchSingleTerm idx B) r
      (List.mem_append_left _ hrA)
  exact ⟨s, (mem_sortByScoreDesc s _).mpr hs, hid⟩

/-- A two-document Text Index for checking the AND-within-OR containment. -/
def idxC7 : TextIndex := fun t _ =>
  if t = "solar" then .ok [⟨1, "Solar", 2⟩]
  else if t = "wind" then .ok [⟨1, "Solar", 1⟩, ⟨3, "Wind", 5⟩] else .ok []

/-- Concrete run of the containment: `"solar AND wind"` returns the one
document both terms hit, `"solar OR wind"` returns both documents, and the
AND ids are among the OR ids. -/
theorem c7_and_subset_or_witness :
    isTerm "solar" = true ∧ isTerm "wind" = true ∧
    executeBooleanSearch idxC7 4 "solar AND wind" = .ok [⟨1, "Solar", 2⟩] ∧
    executeBooleanSearch idxC7 4 "solar OR wind" =
      .ok [⟨3, "Wind", 5⟩, ⟨1, "Solar", 2⟩] ∧
    (∀ r ∈ [(⟨1, "Solar", 2⟩ : SearchResult)],
      ∃ s ∈ [(⟨3, "Wind", 5⟩ : SearchResult), ⟨1, "Solar", 2⟩], s.id = r.id) :=
  ⟨by decide, by decide, by rfl, by rfl,
   c7_and_subset_or idxC7 "solar" "wind" "solar AND wind" "solar OR wind" 0
     (by decide) (by decide) (by decide) (by decide)
     [⟨1, "Solar", 2⟩] [⟨3, "Wind", 5⟩, ⟨1, "Solar", 2⟩] (by rfl) (by rfl)⟩
